import Mathlib

/-!
# Verification of the opus-nx orchestration core

A shallow embedding, in Lean 4, of the parts of the `opus-nx` multi-agent
reasoning orchestrator that the specification's testable properties talk
about:

* the sliding-window rate limiter (`src/agents/src/server.py`,
  `_check_rate_limit`);
* the hypothesis-experiment lifecycle state machine
  (`LIFECYCLE_TRANSITIONS`, `_normalize_status`, `_can_transition`,
  the retain endpoint and the compare endpoint's `_persist_update`);
* the regex complexity classifier and the Maestro-fallback effort routing
  (`src/agents/src/swarm.py`, `classify_complexity`, `_run_pipeline`);
* the rehydration candidate scoring and selection
  (`_compute_candidate_score`, `_recency_score`,
  `_build_reasoning_rehydration_context`);
* the swarm pipeline's per-agent wrapper and result assembly
  (`_run_with_timeout`, `_run_pipeline`);
* the event bus (`src/agents/src/events/bus.py`, `EventBus.publish`);
* the compare endpoint's in-flight deduplication
  (`compare_hypothesis_experiment`, `_run_compare`);
* the shared reasoning graph (`src/agents/src/graph/reasoning_graph.py`,
  `add_node`, `add_edge` with cycle detection, `to_snapshot`,
  `load_snapshot`) on top of a faithful model of the `networkx.DiGraph`
  operations the code uses.

Python floats appear only as scores, weights and timestamps that are
added, multiplied by constants and compared; they are modelled by `ℚ`.
Python timestamps (`datetime`, `time.monotonic()`) are modelled by `ℚ`
or `Int`; `datetime.isoformat` is modelled by an injective rendering to
`String`.  Python dicts are modelled by insertion-ordered association
lists with unique keys (`AttrMap`), matching dict semantics for the
operations used (lookup, insert/update, `pop`, `**`-merge).
-/

/-! ## Python values and dicts -/

/-- A Python value as stored in graph node/edge attribute dicts, event
payloads and experiment rows.  `dt` is a `datetime` (epoch microseconds);
only top-level `datetime` values are special-cased by the code we model.
`vNone` is Python's `None`. -/
inductive Val where
  | vNone : Val
  | str (s : String) : Val
  | num (q : ℚ) : Val
  | dt (t : Int) : Val
  | boolV (b : Bool) : Val
  | listV (xs : List Val) : Val
  | dictV (entries : List (String × Val)) : Val

/-- `datetime.isoformat`, abstracted: an injective rendering of the
timestamp to a string.  The graph logic only moves these strings around,
so the concrete ISO-8601 format is irrelevant; injectivity is what the
round-trip property uses. -/
def isoformat (t : Int) : String := toString t

/-- Python `str.strip()` (without arguments: strips whitespace), written
with structural recursion so concrete instances evaluate. -/
def pyStrip (s : String) : String :=
  ⟨((s.data.dropWhile Char.isWhitespace).reverse.dropWhile Char.isWhitespace).reverse⟩

/-- ASCII case folding for one character (the queries and state names the
code compares are ASCII). -/
def asciiLower (c : Char) : Char :=
  if 'A' ≤ c ∧ c ≤ 'Z' then Char.ofNat (c.toNat + 32) else c

/-- Python `str.lower()`, restricted to ASCII. -/
def pyLower (s : String) : String := ⟨s.data.map asciiLower⟩

/-- An insertion-ordered Python dict with string keys. -/
abbrev AttrMap := List (String × Val)

/-- `d.get(k)` / `d[k]`. -/
def lookupAttr (m : AttrMap) (k : String) : Option Val :=
  match m.find? (fun p => p.1 == k) with
  | some p => some p.2
  | none => none

/-- `d[k] = v`: replace in place if the key exists (keeping its
position), else append — Python dict update semantics (dict keys are
unique, so replacing the first occurrence is exact). -/
def upsertAttr (m : AttrMap) (k : String) (v : Val) : AttrMap :=
  match m with
  | [] => [(k, v)]
  | p :: rest => if p.1 == k then (k, v) :: rest else p :: upsertAttr rest k v

/-- `d.update(u)` / `{**d, **u}`: apply the updates left to right. -/
def updateAttrs (m u : AttrMap) : AttrMap :=
  u.foldl (fun acc p => upsertAttr acc p.1 p.2) m

/-- `d.pop(k, None)`: the popped value (if any) and the remaining dict. -/
def popAttr (m : AttrMap) (k : String) : Option Val × AttrMap :=
  (lookupAttr m k, m.filter (fun p => p.1 != k))

/-! ## Rate limiter (`server.py::_check_rate_limit`)

The per-session timestamp list from `_rate_limit_log`, together with one
call of `_check_rate_limit`: prune entries `≤ now - window`, reject when
the pruned list already holds `max_requests` timestamps (storing exactly
the pruned list), otherwise append `now` and accept. -/

/-- Timestamps surviving the pruning step: `[t for t in timestamps if t > cutoff]`. -/
def pruneTimestamps (timestamps : List ℚ) (now window : ℚ) : List ℚ :=
  timestamps.filter (fun t => now - window < t)

/-- One call of `_check_rate_limit` for one session: returns the verdict
(`True` = within limits) and the list stored back into `_rate_limit_log`. -/
def check_rate_limit (timestamps : List ℚ) (now window : ℚ) (maxRequests : ℕ) :
    Bool × List ℚ :=
  let pruned := pruneTimestamps timestamps now window
  if maxRequests ≤ pruned.length then
    (false, pruned)
  else
    (true, pruned ++ [now])

/-- A whole sequence of requests against one session, from a starting
stored list: returns the final stored list and, per request, the request
time paired with its verdict. -/
def runRateLimiter (timestamps : List ℚ) (reqs : List ℚ) (window : ℚ)
    (maxRequests : ℕ) : List ℚ × List (ℚ × Bool) :=
  match reqs with
  | [] => (timestamps, [])
  | now :: rest =>
      let step := check_rate_limit timestamps now window maxRequests
      let tail := runRateLimiter step.2 rest window maxRequests
      (tail.1, (now, step.1) :: tail.2)

/-! ## Lifecycle state machine (`server.py`) -/

/-- `LIFECYCLE_STATES`. -/
def LIFECYCLE_STATES : List String :=
  ["promoted", "checkpointed", "rerunning", "comparing",
   "retained", "deferred", "archived"]

/-- `FINAL_LIFECYCLE_STATES`. -/
def FINAL_LIFECYCLE_STATES : List String := ["retained", "deferred", "archived"]

/-- `LIFECYCLE_TRANSITIONS`, as the lookup the code performs:
`LIFECYCLE_TRANSITIONS.get(current, {current})`. -/
def lifecycleTransitions (current : String) : List String :=
  if current = "promoted" then
    ["promoted", "checkpointed", "rerunning", "comparing",
     "retained", "deferred", "archived"]
  else if current = "checkpointed" then
    ["checkpointed", "rerunning", "comparing", "retained", "deferred", "archived"]
  else if current = "rerunning" then
    ["rerunning", "comparing", "promoted", "retained", "deferred", "archived"]
  else if current = "comparing" then
    ["comparing", "rerunning", "retained", "deferred", "archived"]
  else if current = "retained" then
    ["retained", "archived"]
  else if current = "deferred" then
    ["deferred", "rerunning", "comparing", "retained", "archived"]
  else if current = "archived" then
    ["archived"]
  else
    [current]

/-- `_normalize_status(status, fallback=...)`. -/
def normalize_status (status : Option String) (fallback : String := "promoted") :
    String :=
  let candidate := pyStrip (status.getD "")
  if candidate ∈ LIFECYCLE_STATES then candidate else fallback

/-- `_can_transition(current_status, next_status)`. -/
def can_transition (currentStatus : Option String) (nextStatus : String) : Bool :=
  let current := normalize_status currentStatus
  nextStatus ∈ lifecycleTransitions current

/-- The status coercion inside the compare endpoint's `_persist_update`:
the requested status is normalized (falling back to the current status),
and a disallowed transition is silently coerced to the current status. -/
def persistUpdateStatus (currentStatus requested : String) : String :=
  let normalizedTarget := normalize_status (some requested) currentStatus
  if can_transition (some currentStatus) normalizedTarget then normalizedTarget
  else currentStatus

/-- The retain endpoint's decision-to-state mapping. -/
def retainNextStatus (decision : String) : String :=
  if decision = "archive" then "archived"
  else if decision = "defer" then "deferred"
  else "retained"

/-- The retain endpoint's transition handling: `none` models the HTTP 409
rejection of a disallowed transition, `some s` the status written. -/
def retainOutcome (currentStatus decision : String) : Option String :=
  let next := retainNextStatus decision
  if can_transition (some currentStatus) next then some next else none

/-! ## Complexity classifier and Maestro-fallback routing (`swarm.py`)

`COMPLEXITY_PATTERNS` holds compiled regexes; each is an alternation of
literal words followed by a word boundary, the "simple" ones anchored at
the start (`^...`), the "complex" ones searched anywhere.  We expand the
optional-character quantifiers (`-?`, `s?`) into explicit alternatives
and model `re.search` with `IGNORECASE` by case-folding the query. -/

/-- A `\w` word character (ASCII portion, which is all the patterns use). -/
def isWordChar (c : Char) : Bool := c.isAlphanum || c = '_'

/-- `\b` right after position `j`: end of string or a non-word character
(all pattern alternatives end in a word character). -/
def boundaryAfter (cs : List Char) (j : ℕ) : Bool :=
  decide (cs.length ≤ j) || !(isWordChar (cs.getD j ' '))

/-- The literal `w` occurs at position `i` of `cs`. -/
def litMatchAt (cs : List Char) (i : ℕ) (w : List Char) : Bool :=
  decide ((cs.drop i).take w.length = w)

/-- The literal `w` occurs at position `i` and is followed by `\b`. -/
def matchWordAt (cs : List Char) (i : ℕ) (w : String) : Bool :=
  litMatchAt cs i w.data && boundaryAfter cs (i + w.data.length)

/-- `re.search` for an anchored alternation `^(?:w₁|…|wₙ)\b`. -/
def searchAnchored (cs : List Char) (alts : List String) : Bool :=
  alts.any (fun w => matchWordAt cs 0 w)

/-- `re.search` for an unanchored alternation `(?:w₁|…|wₙ)\b`. -/
def searchAnywhere (cs : List Char) (alts : List String) : Bool :=
  alts.any (fun w => (List.range (cs.length + 1)).any (fun i => matchWordAt cs i w))

/-- `COMPLEXITY_PATTERNS["simple"]`, alternatives expanded. -/
def simpleAlts1 : List String :=
  ["hi", "hello", "hey", "thanks", "thank you", "ok", "sure", "yes", "no"]

def simpleAlts2 : List String :=
  ["what is", "what are", "who is", "who are", "when did", "when was", "when is"]

def simpleAlts3 : List String := ["define", "explain briefly", "summarize"]

/-- `COMPLEXITY_PATTERNS["complex"]`, alternatives and optional
characters (`fix (?:the|this|my)`, `trade-?offs?`, `pros? and cons?`,
`multi-?step`) expanded. -/
def complexAlts1 : List String :=
  ["debug", "troubleshoot", "diagnose", "fix the", "fix this", "fix my"]

def complexAlts2 : List String :=
  ["architect", "design", "plan", "strategy", "analyze in depth"]

def complexAlts3 : List String :=
  ["compare and contrast", "tradeoff", "tradeoffs", "trade-off", "trade-offs",
   "pro and con", "pro and cons", "pros and con", "pros and cons"]

def complexAlts4 : List String :=
  ["research", "investigate", "deep dive", "comprehensive"]

def complexAlts5 : List String :=
  ["step by step", "multistep", "multi-step", "workflow", "pipeline"]

def complexAlts6 : List String := ["refactor", "optimize", "improve performance"]

/-- The query, case-folded and viewed as characters (`re.IGNORECASE`). -/
def queryChars (query : String) : List Char := (pyLower query).data

/-- `classify_complexity(query)`: the "simple" patterns first, then the
"complex" ones, else `"standard"`. -/
def classify_complexity (query : String) : String :=
  if searchAnchored (queryChars query) simpleAlts1 ||
      searchAnchored (queryChars query) simpleAlts2 ||
      searchAnchored (queryChars query) simpleAlts3 then
    "simple"
  else if searchAnywhere (queryChars query) complexAlts1 ||
      searchAnywhere (queryChars query) complexAlts2 ||
      searchAnywhere (queryChars query) complexAlts3 ||
      searchAnywhere (queryChars query) complexAlts4 ||
      searchAnywhere (queryChars query) complexAlts5 ||
      searchAnywhere (queryChars query) complexAlts6 then
    "complex"
  else
    "standard"

/-- `EFFORT_MAP`. -/
def EFFORT_MAP : List (String × String) :=
  [("simple", "medium"), ("standard", "high"), ("complex", "max")]

/-- `EFFORT_MAP[c]` (the indexing is total on `classify_complexity`'s
range; see `classify_complexity_mem`). -/
def effortMapLookup (c : String) : Option String :=
  (EFFORT_MAP.find? (fun p => p.1 == c)).map (fun p => p.2)

/-- The keys of `agent_constructors` in `_run_pipeline`. -/
def agentConstructorNames : List String := ["deep_thinker", "contrarian", "verifier"]

/-- Python dict lookup for `effort_map = {a["name"]: a["effort"] for a in …}`:
on duplicate names the later entry wins. -/
def lookupLast (table : List (String × String)) (k : String) : Option String :=
  (table.reverse.find? (fun p => p.1 == k)).map (fun p => p.2)

/-- `agent_names_for_event`: the plan's names, or the three primaries when
the plan is empty (Maestro timeout / parse failure). -/
def agentNamesForEvent (planAgents : List (String × String)) : List String :=
  if planAgents.isEmpty then agentConstructorNames else planAgents.map (fun p => p.1)

/-- The primary-agent list `_run_pipeline` builds, as `(name, effort)`
pairs: unknown names are dropped; `deep_thinker` defaults to `"max"`,
every other primary defaults to the regex-fallback effort. -/
def primaryDeployment (planAgents : List (String × String)) (query : String) :
    List (String × String) :=
  let fallbackEffort := (effortMapLookup (classify_complexity query)).getD "high"
  (agentNamesForEvent planAgents).filterMap (fun name =>
    if name ∈ agentConstructorNames then
      some (name,
        if name = "deep_thinker" then (lookupLast planAgents name).getD "max"
        else (lookupLast planAgents name).getD fallbackEffort)
    else none)

/-! ## Swarm pipeline results (`swarm.py::_run_with_timeout`,
`_run_pipeline`, `_backfill_tokens`) -/

/-- `AgentName` (graph/models.py). -/
inductive AgentName where
  | maestro | deep_thinker | contrarian | verifier | synthesizer | metacognition
deriving DecidableEq

/-- `AgentResult` (graph/models.py).  Note: the pydantic model has *no*
`input_tokens_used` field; the agents pass one to the constructor but
pydantic silently drops unknown keyword arguments, and reading the
attribute back raises `AttributeError`. -/
structure AgentResult where
  agent : AgentName
  status : String
  reasoning : String
  conclusion : String
  confidence : ℚ
  node_ids : List String
  tokens_used : ℕ
  duration_ms : ℕ

/-- The behaviours one `agent.run(query)` call can exhibit inside
`_run_with_timeout`: return normally (every agent's normal return path
constructs its result with `status="completed"`), exceed the
`asyncio.wait_for` deadline, raise an `Exception`, or raise a
`BaseException` that is not an `Exception` (e.g. `CancelledError`), which
escapes `_run_with_timeout` and is captured by
`asyncio.gather(return_exceptions=True)`. -/
inductive RunOutcome where
  | completes (reasoning conclusion : String) (confidence : ℚ)
      (node_ids : List String) (tokens : ℕ) (duration_ms : ℕ)
  | timesOut
  | raises (msg : String)
  | escapes (msg : String)

/-- `_run_with_timeout` for the first three behaviours (the fourth
escapes it). -/
def run_with_timeout (agent : AgentName) (timeoutSeconds : ℕ) :
    RunOutcome → AgentResult
  | RunOutcome.completes r c conf ids tok dur =>
      ⟨agent, "completed", r, c, conf, ids, tok, dur⟩
  | RunOutcome.timesOut =>
      ⟨agent, "timeout", "Agent timed out", "", 0, [], 0, timeoutSeconds * 1000⟩
  | RunOutcome.raises msg => ⟨agent, "error", msg, "", 0, [], 0, 0⟩
  | RunOutcome.escapes msg => ⟨agent, "error", msg, "", 0, [], 0, 0⟩

/-- The per-primary conversion in `_run_pipeline`: a `BaseException`
surfacing from `gather` is converted to a structured error result, any
other outcome went through `_run_with_timeout`. -/
def phase1Result (timeoutSeconds : ℕ) (p : AgentName × RunOutcome) : AgentResult :=
  match p.2 with
  | RunOutcome.escapes msg => ⟨p.1, "error", msg, "", 0, [], 0, 0⟩
  | o => run_with_timeout p.1 timeoutSeconds o

/-- `_backfill_tokens`: returns without touching results when no
persistence gateway is configured; otherwise evaluates
`result.tokens_used > 0 or result.input_tokens_used > 0` per result.  The
`or` short-circuits, so a result with positive `tokens_used` is safe, but
for `tokens_used == 0` the attribute read `result.input_tokens_used`
raises `AttributeError` (`AgentResult` has no such field) outside the
`try` that guards only the gateway call. -/
def backfill_tokens (persistenceConfigured : Bool) :
    List AgentResult → Except String Unit
  | [] => Except.ok ()
  | r :: rest =>
      if persistenceConfigured then
        if r.tokens_used > 0 then backfill_tokens persistenceConfigured rest
        else Except.error "AttributeError: AgentResult has no field input_tokens_used"
      else Except.ok ()

/-- The agent-result assembly of `_run_pipeline` from Phase 1 through
Phase 3 (an `Except.error` models an exception aborting the pipeline):
primaries are zipped with their gathered outcomes, each `_backfill_tokens`
call may raise, then the synthesizer and metacognition results are
appended (each followed by its own backfill). -/
def pipelineAgentResults (persistenceConfigured : Bool) (timeoutSeconds : ℕ)
    (primaries : List (AgentName × RunOutcome))
    (synthOutcome metaOutcome : RunOutcome) : Except String (List AgentResult) :=
  let phase1 := primaries.map (phase1Result timeoutSeconds)
  match backfill_tokens persistenceConfigured phase1 with
  | Except.error e => Except.error e
  | Except.ok _ =>
    let synthResult := run_with_timeout AgentName.synthesizer timeoutSeconds synthOutcome
    match backfill_tokens persistenceConfigured [synthResult] with
    | Except.error e => Except.error e
    | Except.ok _ =>
      let metaResult := run_with_timeout AgentName.metacognition timeoutSeconds metaOutcome
      match backfill_tokens persistenceConfigured [metaResult] with
      | Except.error e => Except.error e
      | Except.ok _ => Except.ok (phase1 ++ [synthResult, metaResult])

/-! ## Rehydration scoring and selection (`swarm.py`) -/

/-- A rehydration candidate as built in
`_build_reasoning_rehydration_context` (the keys of the candidate dict). -/
structure Candidate where
  source : String
  rowId : String
  session_id : String
  text : String
  text_hash : String
  similarity : ℚ
  importance : ℚ
  recency : ℚ
  retained_policy_bonus : ℚ
  score : ℚ

/-- `_compute_candidate_score`. -/
def compute_candidate_score (similarity importance recency
    retained_policy_bonus : ℚ) : ℚ :=
  60/100 * similarity + 25/100 * importance + 10/100 * recency +
    5/100 * retained_policy_bonus

/-- `_recency_score` on an already-parsed timestamp (`none` models a
missing/unparsable timestamp). -/
def recency_score (now : ℚ) (timestamp : Option ℚ) : ℚ :=
  match timestamp with
  | none => 1/2
  | some ts =>
      let ageSeconds := max 0 (now - ts)
      let ageDays := ageSeconds / 86400
      max 0 (min 1 (1 - ageDays / 30))

/-- The artifact retained-policy bonus: 1.0 exactly when the row's
`snapshot` dict records `retention_decision == "retain"`. -/
def artifactRetainedBonus (snapshot : Option AttrMap) : ℚ :=
  match snapshot with
  | some m =>
      match lookupAttr m "retention_decision" with
      | some (Val.str s) => if s = "retain" then 1 else 0
      | _ => 0
  | none => 0

/-- `sorted(deduped.values(), key=score, reverse=True)`: a stable
descending sort by score (`List.mergeSort` is stable, like Python's sort). -/
def rankCandidates (deduped : List Candidate) : List Candidate :=
  deduped.mergeSort (fun a b => decide (b.score ≤ a.score))

/-- `cross_session_ranked`. -/
def cross_session_ranked (ranked : List Candidate) (sessionId : String) :
    List Candidate :=
  ranked.filter (fun c => c.session_id ≠ sessionId)

/-- `selected_rows = (cross_session_ranked or ranked)[:4]`. -/
def selected_rows (ranked : List Candidate) (sessionId : String) : List Candidate :=
  (if (cross_session_ranked ranked sessionId).isEmpty then ranked
   else cross_session_ranked ranked sessionId).take 4

/-- The four per-candidate score inputs named by the spec. -/
def scoreInputs (c : Candidate) : ℚ × ℚ × ℚ × ℚ :=
  (c.similarity, c.importance, c.recency, c.retained_policy_bonus)

/-! ## Event bus (`events/bus.py`) -/

/-- An `asyncio.Queue` holding serialized events (payloads are opaque for
the bus logic; `maxsize = 0` means unbounded, as in asyncio). -/
structure PyQueue where
  maxsize : ℕ
  items : List String

/-- `queue.put_nowait` raises `QueueFull` iff the queue is bounded and at
capacity. -/
def queueFull (q : PyQueue) : Bool :=
  decide (0 < q.maxsize) && decide (q.maxsize ≤ q.items.length)

/-- An event handed to `publish`: either a typed pydantic event (whose
`model_dump(mode="json")` is its serialized payload) or a raw dict (the
checkpoint/lifecycle paths), which makes `event.model_dump` raise
`AttributeError` and takes the fallback branch. -/
inductive BusEvent where
  | typed (payload : String)
  | rawDict (payload : String)

def busEventPayload : BusEvent → String
  | BusEvent.typed p => p
  | BusEvent.rawDict p => p

/-- `EventBus` state. -/
structure EventBus where
  subscribers : List (String × List PyQueue)
  session_timestamps : List (String × Int)
  drop_counts : List (String × ℕ)
  last_drop_log : List (String × ℚ)

/-- Ordered-dict update on a `String`-keyed association list (Python dict
assignment). -/
def upsertKey {α : Type} (m : List (String × α)) (k : String) (v : α) :
    List (String × α) :=
  if m.any (fun p => p.1 == k) then
    m.map (fun p => if p.1 == k then (k, v) else p)
  else
    m ++ [(k, v)]

def lookupKey {α : Type} (m : List (String × α)) (k : String) : Option α :=
  (m.find? (fun p => p.1 == k)).map (fun p => p.2)

/-- Delivery of one event to one queue inside `publish`'s loop, threading
the session's running drop count and last-drop-log time: on `QueueFull`
for a typed event the drop counter increments and the warning log time
advances at most once per 10 seconds; the raw-dict fallback increments
the counter without touching the log time. -/
def deliverToQueue (ev : BusEvent) (monoNow : ℚ) (st : PyQueue × ℕ × ℚ × Bool × Bool) :
    PyQueue × ℕ × ℚ × Bool × Bool :=
  let q := st.1
  let drops := st.2.1
  let lastLog := st.2.2.1
  if queueFull q then
    match ev with
    | BusEvent.typed _ =>
        if 10 < monoNow - lastLog then (q, drops + 1, monoNow, true, true)
        else (q, drops + 1, lastLog, true, st.2.2.2.2)
    | BusEvent.rawDict _ => (q, drops + 1, lastLog, true, st.2.2.2.2)
  else
    ({ q with items := q.items ++ [busEventPayload ev] }, drops, lastLog,
      st.2.2.2.1, st.2.2.2.2)

/-- `EventBus.publish(session_id, event)`: stamps the session's
last-activity time, then enqueues into every registered queue for the
session, dropping on `QueueFull` (incrementing `_drop_counts` and
rate-limiting `_last_drop_log` updates).  Dict entries for drop counts
and the drop log are only created when a drop actually happens. -/
def publish (bus : EventBus) (sessionId : String) (nowDt : Int) (monoNow : ℚ)
    (ev : BusEvent) : EventBus :=
  let timestamps := upsertKey bus.session_timestamps sessionId nowDt
  let queues := (lookupKey bus.subscribers sessionId).getD []
  let startDrops := (lookupKey bus.drop_counts sessionId).getD 0
  let startLog := (lookupKey bus.last_drop_log sessionId).getD 0
  let step := queues.foldl
    (fun (acc : List PyQueue × ℕ × ℚ × Bool × Bool) q =>
      let r := deliverToQueue ev monoNow (q, acc.2)
      (acc.1 ++ [r.1], r.2))
    ([], startDrops, startLog, false, false)
  { subscribers :=
      if (lookupKey bus.subscribers sessionId).isSome then
        upsertKey bus.subscribers sessionId step.1
      else bus.subscribers,
    session_timestamps := timestamps,
    drop_counts :=
      if step.2.2.2.1 then upsertKey bus.drop_counts sessionId step.2.1
      else bus.drop_counts,
    last_drop_log :=
      if step.2.2.2.2 then upsertKey bus.last_drop_log sessionId step.2.2.1
      else bus.last_drop_log }

/-! ## Compare endpoint in-flight handling (`server.py`) -/

/-- The comparison-result slot of an experiment row: absent, the pending
placeholder `_persist_update`d before the background rerun is spawned, or
a final result recorded by `_run_compare`. -/
inductive CompRes where
  | pending
  | final

/-- The slice of a (coerced) experiment row the compare endpoint reads
and writes. -/
structure Experiment where
  status : String
  comparison : Option CompRes
  checkpointNodeId : Option String
  checkpointCorrection : Option String

/-- `HypothesisCompareRequest` (defaults: `rerunIfMissing = true`,
`forceRerun = false`). -/
structure CompareReq where
  force_rerun : Bool
  rerun_if_missing : Bool
  node_id : Option String
  correction : Option String

/-- What one call of `compare_hypothesis_experiment` returns. -/
inductive CompareMode where
  | existingResult      -- `"mode": "existing_result"` (status `comparison_ready`)
  | alreadyRerunning    -- `"mode": "already_rerunning"`
  | inflightMode        -- `"mode": "inflight"`
  | asyncStarted        -- `"mode": "async_started"` (rerun spawned)
  | conflict409         -- HTTPException 409
deriving DecidableEq

/-- The outcome of one compare call: the mode returned, the experiment
row afterwards, whether the experiment is in `_compare_inflight`
afterwards, and whether a background rerun task was spawned. -/
structure CompareOutcome where
  mode : CompareMode
  exp : Experiment
  inflightAfter : Bool
  spawned : Bool

/-- One sequential execution of the compare endpoint body (after the
404/UUID guards), against the current row `exp` and the in-flight flag
for this experiment.  Follows the branch order of the code:
existing-comparison fast path, `rerunning` fast path, `rerunIfMissing`
guard, checkpoint-data guard, in-flight guard, then persist the pending
placeholder (status coerced through the lifecycle table), mark in-flight
and spawn the background rerun. -/
def resolvedNodeId (exp : Experiment) (req : CompareReq) : String :=
  match req.node_id with
  | some s => if s = "" then exp.checkpointNodeId.getD "" else s
  | none => exp.checkpointNodeId.getD ""

/-- `correction = request.correction or str(last_checkpoint.get("correction") or "")`:
Python `or` falls through on `None` and on the empty string. -/
def resolvedCorrection (exp : Experiment) (req : CompareReq) : String :=
  match req.correction with
  | some s => if s = "" then exp.checkpointCorrection.getD "" else s
  | none => exp.checkpointCorrection.getD ""

def compareEndpoint (exp : Experiment) (inflight : Bool) (req : CompareReq) :
    CompareOutcome :=
  if exp.comparison.isSome && !req.force_rerun then
    let status' :=
      if exp.status ∈ FINAL_LIFECYCLE_STATES then exp.status
      else persistUpdateStatus exp.status "comparing"
    ⟨CompareMode.existingResult, { exp with status := status' }, inflight, false⟩
  else if exp.status = "rerunning" && !req.force_rerun then
    ⟨CompareMode.alreadyRerunning, exp, inflight, false⟩
  else if !req.rerun_if_missing && !req.force_rerun then
    ⟨CompareMode.conflict409, exp, inflight, false⟩
  else
    if resolvedNodeId exp req = "" || resolvedCorrection exp req = "" then
      ⟨CompareMode.conflict409, exp, inflight, false⟩
    else if inflight && !req.force_rerun then
      ⟨CompareMode.inflightMode, exp, inflight, false⟩
    else
      ⟨CompareMode.asyncStarted,
        { exp with
            status := persistUpdateStatus exp.status "rerunning",
            comparison := some CompRes.pending },
        true, true⟩

/-- The background `_run_compare` task finishing: on success the row gets
the final comparison and moves to `comparing`; on failure the row is
pushed back to `promoted`; either way the `finally` block removes the
experiment from the in-flight set. -/
def runCompareFinish (exp : Experiment) (success : Bool) :
    Experiment × Bool :=
  if success then
    let exp' := { exp with
      status := persistUpdateStatus exp.status "comparing",
      comparison := some CompRes.final }
    (exp', false)
  else
    let exp' := { exp with status := persistUpdateStatus exp.status "promoted" }
    (exp', false)

/-! ## Shared reasoning graph (`graph/reasoning_graph.py`)

The graph is a `networkx.DiGraph`: an insertion-ordered node dict mapping
node key to attribute dict, and an edge collection mapping `(u, v)` to an
attribute dict.  The operations the code uses are modelled exactly:
`G.add_node` updates attributes of an existing node, `G.add_edge`
silently creates missing endpoint nodes (with empty attributes) and
updates an existing edge's attributes, `v in G` is key membership, and
`nx.has_path(G, s, t)` is directed reachability (true for `s = t`).
Node keys in this system are strings (uuid4 hex). -/

structure PyGraph where
  nodes : List (String × AttrMap)
  edges : List (String × String × AttrMap)

/-- `v in G`. -/
def hasNodeB (g : PyGraph) (k : String) : Bool :=
  g.nodes.any (fun p => p.1 == k)

/-- `G.add_node(k, **attrs)`: update attributes if the node exists, else
append it. -/
def addNodePy (g : PyGraph) (k : String) (attrs : AttrMap) : PyGraph :=
  if hasNodeB g k then
    { g with nodes :=
        g.nodes.map (fun p => if p.1 == k then (p.1, updateAttrs p.2 attrs) else p) }
  else
    { g with nodes := g.nodes ++ [(k, attrs)] }

def hasEdgeB (g : PyGraph) (u v : String) : Bool :=
  g.edges.any (fun e => e.1 == u && e.2.1 == v)

/-- Ensure a node key exists (with an empty attribute dict when absent),
as `G.add_edge` does for missing endpoints. -/
def ensureNode (g : PyGraph) (k : String) : PyGraph :=
  if hasNodeB g k then g else { g with nodes := g.nodes ++ [(k, [])] }

/-- `G.add_edge(u, v, **attrs)`: create missing endpoints with empty
attribute dicts, then update the edge's attributes if it exists, else
append it. -/
def addEdgeRaw (g : PyGraph) (u v : String) (attrs : AttrMap) : PyGraph :=
  if hasEdgeB (ensureNode (ensureNode g u) v) u v then
    { ensureNode (ensureNode g u) v with
        edges := (ensureNode (ensureNode g u) v).edges.map (fun e =>
          if e.1 == u && e.2.1 == v then (e.1, e.2.1, updateAttrs e.2.2 attrs) else e) }
  else
    { ensureNode (ensureNode g u) v with
        edges := (ensureNode (ensureNode g u) v).edges ++ [(u, v, attrs)] }

/-- The directed edge pairs of the graph. -/
def edgePairs (g : PyGraph) : List (String × String) :=
  g.edges.map (fun e => (e.1, e.2.1))

/-- Bounded reachability: `reachB es n s t` is true iff some walk of
length at most `n` along `es` joins `s` to `t`. -/
def reachB (es : List (String × String)) : ℕ → String → String → Bool
  | 0, s, t => s == t
  | n+1, s, t => s == t || es.any (fun e => e.1 == s && reachB es n e.2 t)

/-- `nx.has_path(G, s, t)`: a fuel of `|edges|` covers every shortest
walk (`reachB_complete` below). -/
def hasPathB (g : PyGraph) (s t : String) : Bool :=
  reachB (edgePairs g) (edgePairs g).length s t

/-- `EdgeRelation` (graph/models.py). -/
inductive EdgeRelation where
  | leads_to | challenges | verifies | supports | contradicts | merges | observes
deriving DecidableEq

def relationValue : EdgeRelation → String
  | EdgeRelation.leads_to => "LEADS_TO"
  | EdgeRelation.challenges => "CHALLENGES"
  | EdgeRelation.verifies => "VERIFIES"
  | EdgeRelation.supports => "SUPPORTS"
  | EdgeRelation.contradicts => "CONTRADICTS"
  | EdgeRelation.merges => "MERGES"
  | EdgeRelation.observes => "OBSERVES"

def agentValue : AgentName → String
  | AgentName.maestro => "maestro"
  | AgentName.deep_thinker => "deep_thinker"
  | AgentName.contrarian => "contrarian"
  | AgentName.verifier => "verifier"
  | AgentName.synthesizer => "synthesizer"
  | AgentName.metacognition => "metacognition"

/-- `ReasoningNode` (graph/models.py). -/
structure ReasoningNode where
  id : String
  agent : AgentName
  session_id : String
  content : String
  reasoning : Option String
  confidence : ℚ
  decision_points : List Val
  created_at : Int

def optStrVal : Option String → Val
  | some s => Val.str s
  | none => Val.vNone

/-- `node.model_dump()` in field order (`AgentName` is a `str` enum, so
its dumped value is its string). -/
def nodeDump (n : ReasoningNode) : AttrMap :=
  [("id", Val.str n.id), ("agent", Val.str (agentValue n.agent)),
   ("session_id", Val.str n.session_id), ("content", Val.str n.content),
   ("reasoning", optStrVal n.reasoning), ("confidence", Val.num n.confidence),
   ("decision_points", Val.listV n.decision_points),
   ("created_at", Val.dt n.created_at)]

/-- `ReasoningEdge` (graph/models.py). -/
structure ReasoningEdge where
  source_id : String
  target_id : String
  relation : EdgeRelation
  weight : ℚ
  metadata : AttrMap

/-- `edge.model_dump(exclude={"source_id", "target_id"})`. -/
def edgeDump (e : ReasoningEdge) : AttrMap :=
  [("relation", Val.str (relationValue e.relation)),
   ("weight", Val.num e.weight), ("metadata", Val.dictV e.metadata)]

/-- `SharedReasoningGraph.add_node`. -/
def add_node (g : PyGraph) (n : ReasoningNode) : PyGraph :=
  addNodePy g n.id (nodeDump n)

/-- `SharedReasoningGraph.add_edge`: the returned flag is true iff
`CycleDetectedError` was raised, in which case the graph is returned
untouched (the exception fires before any mutation). -/
def add_edge (g : PyGraph) (e : ReasoningEdge) : PyGraph × Bool :=
  if hasNodeB g e.target_id && hasNodeB g e.source_id &&
      hasPathB g e.target_id e.source_id then
    (g, true)
  else
    (addEdgeRaw g e.source_id e.target_id (edgeDump e), false)

/-- A mutation against the shared graph. -/
inductive GraphOp where
  | node (n : ReasoningNode)
  | edge (e : ReasoningEdge)

def applyOp (g : PyGraph) : GraphOp → PyGraph
  | GraphOp.node n => add_node g n
  | GraphOp.edge e => (add_edge g e).1

def pyEmptyGraph : PyGraph := ⟨[], []⟩

/-- The graph after a sequence of add-node/add-edge calls from empty
(rejected edges leave the graph unchanged). -/
def runOps (ops : List GraphOp) : PyGraph :=
  ops.foldl applyOp pyEmptyGraph

def edgeOfOp : GraphOp → Option ReasoningEdge
  | GraphOp.node _ => none
  | GraphOp.edge e => some e

/-- The one-step edge relation of the graph, and its reflexive-transitive
closure (the "path" of `nx.has_path`). -/
def EdgeMem (g : PyGraph) (u v : String) : Prop := (u, v) ∈ edgePairs g

def GStar (g : PyGraph) (u v : String) : Prop :=
  Relation.ReflTransGen (EdgeMem g) u v

/-! ## Snapshot export/import (`to_snapshot` / `load_snapshot`) -/

/-- `data.get("session_id") == session_id` (a non-string stored value
compares unequal to the session string). -/
def sessionMatches (attrs : AttrMap) (sid : String) : Bool :=
  match lookupAttr attrs "session_id" with
  | some (Val.str s) => s == sid
  | _ => false

/-- Top-level `isinstance(v, datetime)` serialization. -/
def serializeVal : Val → Val
  | Val.dt t => Val.str (isoformat t)
  | v => v

def serializeAttrs (m : AttrMap) : AttrMap :=
  m.map (fun p => (p.1, serializeVal p.2))

structure Snapshot where
  session_id : String
  nodes : List AttrMap
  edges : List AttrMap

/-- The session-scoped node rows of the graph, in insertion order. -/
def sessionNodes (g : PyGraph) (sid : String) : List (String × AttrMap) :=
  g.nodes.filter (fun p => sessionMatches p.2 sid)

def sessionNodeIds (g : PyGraph) (sid : String) : List String :=
  (sessionNodes g sid).map (fun p => p.1)

/-- The session-internal edges (both endpoints in the session node set). -/
def sessionEdges (g : PyGraph) (sid : String) : List (String × String × AttrMap) :=
  g.edges.filter (fun e =>
    (sessionNodeIds g sid).contains e.1 && (sessionNodeIds g sid).contains e.2.1)

/-- `SharedReasoningGraph.to_snapshot(session_id)`: session nodes with
datetimes iso-serialized and the id merged in (`{"id": nid, **serializable}`),
and session-internal edges with endpoints merged in
(`{"source_id": src, "target_id": tgt, **data}`, no serialization). -/
def to_snapshot (g : PyGraph) (sid : String) : Snapshot :=
  { session_id := sid,
    nodes := (sessionNodes g sid).map (fun p =>
      updateAttrs [("id", Val.str p.1)] (serializeAttrs p.2)),
    edges := (sessionEdges g sid).map (fun e =>
      updateAttrs [("source_id", Val.str e.1), ("target_id", Val.str e.2.1)] e.2.2) }

/-- Python truthiness of a popped id value as a node key: ids in this
system are strings; `None` and the empty string are falsy and skip the
entry. -/
def truthyId : Option Val → Option String
  | some (Val.str s) => if s = "" then none else some s
  | _ => none

/-- One node entry of `load_snapshot`: `nid = node_data.pop("id", None)`,
`if nid: self._graph.add_node(nid, **node_data)`. -/
def loadNodeStep (acc : PyGraph) (nd : AttrMap) : PyGraph :=
  match truthyId (popAttr nd "id").1 with
  | some nid => addNodePy acc nid (popAttr nd "id").2
  | none => acc

/-- One edge entry of `load_snapshot`: pop both endpoints, add the edge
when both are truthy. -/
def loadEdgeStep (acc : PyGraph) (ed : AttrMap) : PyGraph :=
  match truthyId (popAttr ed "source_id").1,
      truthyId (popAttr (popAttr ed "source_id").2 "target_id").1 with
  | some src, some tgt =>
      addEdgeRaw acc src tgt (popAttr (popAttr ed "source_id").2 "target_id").2
  | _, _ => acc

/-- `SharedReasoningGraph.load_snapshot(snapshot)`: pop the id out of
each node dict and `G.add_node` it when truthy; then pop the endpoints
out of each edge dict and `G.add_edge` them when both truthy.  Returns
`len(nodes)` regardless of how many were skipped. -/
def load_snapshot (g : PyGraph) (snap : Snapshot) : PyGraph × ℕ :=
  (snap.edges.foldl loadEdgeStep (snap.nodes.foldl loadNodeStep g),
    snap.nodes.length)

/-- `SharedReasoningGraph.get_node`: `{**data, "id": node_id}`. -/
def get_node (g : PyGraph) (nid : String) : Option AttrMap :=
  match g.nodes.find? (fun p => p.1 == nid) with
  | some p => some (upsertAttr p.2 "id" (Val.str nid))
  | none => none

/-- Well-formedness of a graph as `SharedReasoningGraph` maintains it:
string node keys are nonempty and unique, each node's attribute dict has
unique keys and stores either no `"id"` or its own key, edge pairs are
unique with endpoints among the nodes, and edge attribute dicts have
unique keys none of which is `"source_id"`/`"target_id"`. -/
structure GraphWF (g : PyGraph) : Prop where
  nodeKeysNodup : (g.nodes.map Prod.fst).Nodup
  nodeKeysNonempty : ∀ p ∈ g.nodes, p.1 ≠ ""
  nodeAttrKeysNodup : ∀ p ∈ g.nodes, (p.2.map Prod.fst).Nodup
  nodeIdAttr : ∀ p ∈ g.nodes,
    lookupAttr p.2 "id" = none ∨ lookupAttr p.2 "id" = some (Val.str p.1)
  edgePairsNodup : (g.edges.map (fun e => (e.1, e.2.1))).Nodup
  edgeEndpointsNodes : ∀ e ∈ g.edges,
    e.1 ∈ g.nodes.map Prod.fst ∧ e.2.1 ∈ g.nodes.map Prod.fst
  edgeAttrKeysNodup : ∀ e ∈ g.edges, (e.2.2.map Prod.fst).Nodup
  edgeAttrPlainKeys : ∀ e ∈ g.edges, ∀ p ∈ e.2.2,
    p.1 ≠ "source_id" ∧ p.1 ≠ "target_id"

/-- The cycle-safety invariant `add_node`/`add_edge` maintain: every edge
endpoint is a node of the graph, and no cycle visits two distinct nodes
(self-loops slipped past the guard are the only possible cycles). -/
structure GraphInv (g : PyGraph) : Prop where
  endpoints : ∀ e ∈ g.edges, hasNodeB g e.1 = true ∧ hasNodeB g e.2.1 = true
  noBigCycle : ∀ u v : String, u ≠ v → ¬(GStar g u v ∧ GStar g v u)

/-! # Theorems -/

/-! ## C10 — rate limiter -/

/-- Every timestamp the rate limiter ever stores is either inherited from
the starting list or the time of an accepted request. -/
theorem runRateLimiter_mem_accepted (window : ℚ) (maxRequests : ℕ) :
    ∀ (reqs start : List ℚ) (t : ℚ),
      t ∈ (runRateLimiter start reqs window maxRequests).1 →
      t ∈ start ∨ (t, true) ∈ (runRateLimiter start reqs window maxRequests).2 := by
  intro reqs
  induction reqs with
  | nil => intro start t ht; exact Or.inl ht
  | cons r rest ih =>
    intro start t ht
    simp only [runRateLimiter] at ht ⊢
    rcases ih (check_rate_limit start r window maxRequests).2 t ht with h | h
    · by_cases hcase : maxRequests ≤ (pruneTimestamps start r window).length
      · left
        have hck : (check_rate_limit start r window maxRequests).2 =
            pruneTimestamps start r window := by
          simp [check_rate_limit, hcase]
        rw [hck] at h
        exact (List.filter_sublist _).subset h
      · have hck : check_rate_limit start r window maxRequests =
            (true, pruneTimestamps start r window ++ [r]) := by
          simp [check_rate_limit, hcase]
        rw [hck] at h
        rcases List.mem_append.mp h with h1 | h1
        · exact Or.inl ((List.filter_sublist _).subset h1)
        · right
          simp only [List.mem_singleton] at h1
          subst h1
          have hv : (check_rate_limit start t window maxRequests).1 = true := by
            rw [hck]
          rw [hv]
          exact List.mem_cons_self _ _
    · exact Or.inr (List.mem_cons_of_mem _ h)

/-- **C10.** A request rejected by the sliding-window rate limiter does not
consume a slot: when, after pruning timestamps older than the window, the
session already holds at least `maxRequests` timestamps, the check returns
`false` and stores exactly the pruned list (a sublist of the previous
list, nothing appended); consequently, over any request sequence, every
stored timestamp is the time of an accepted request. -/
theorem c10_rejected_requests_consume_no_slot
    (timestamps : List ℚ) (now window : ℚ) (maxRequests : ℕ)
    (hfull : maxRequests ≤ (pruneTimestamps timestamps now window).length) :
    check_rate_limit timestamps now window maxRequests =
      (false, pruneTimestamps timestamps now window) ∧
    (check_rate_limit timestamps now window maxRequests).2.Sublist timestamps ∧
    (∀ (start reqs : List ℚ) (t : ℚ),
      t ∈ (runRateLimiter start reqs window maxRequests).1 →
      t ∈ start ∨ (t, true) ∈ (runRateLimiter start reqs window maxRequests).2) := by
  refine ⟨?_, ?_, ?_⟩
  · simp [check_rate_limit, hfull]
  · have hck : check_rate_limit timestamps now window maxRequests =
        (false, pruneTimestamps timestamps now window) := by
      simp [check_rate_limit, hfull]
    rw [hck]
    exact List.filter_sublist _
  · intro start reqs t
    exact runRateLimiter_mem_accepted window maxRequests reqs start t

/-- Witness for C10 at a concrete input: with window 60, limit 2 and
stored timestamps `[10, 20]`, a request at time 30 is rejected and the
stored list stays `[10, 20]`. -/
theorem c10_rejected_requests_consume_no_slot_witness :
    check_rate_limit [10, 20] 30 60 2 = (false, [10, 20]) := by
  have h := c10_rejected_requests_consume_no_slot [10, 20] 30 60 2 (by
    show (2 : ℕ) ≤ (pruneTimestamps [10, 20] 30 60).length
    norm_num [pruneTimestamps, List.filter])
  have h1 := h.1
  rw [h1]
  norm_num [pruneTimestamps, List.filter]

/-! ## C3 — lifecycle terminal states -/

/-- The transition predicate out of `retained`, computed. -/
theorem can_transition_retained (t : String) :
    can_transition (some "retained") t = true ↔ (t = "retained" ∨ t = "archived") := by
  have h : normalize_status (some "retained") = "retained" := by decide
  have h2 : lifecycleTransitions "retained" = ["retained", "archived"] := by decide
  simp only [can_transition, h, h2, decide_eq_true_eq, List.mem_cons,
    List.not_mem_nil, or_false]

/-- The transition predicate out of `archived`, computed. -/
theorem can_transition_archived (t : String) :
    can_transition (some "archived") t = true ↔ t = "archived" := by
  have h : normalize_status (some "archived") = "archived" := by decide
  have h2 : lifecycleTransitions "archived" = ["archived"] := by decide
  simp only [can_transition, h, h2, decide_eq_true_eq, List.mem_cons,
    List.not_mem_nil, or_false]

/-- The transition predicate out of `deferred`, computed. -/
theorem can_transition_deferred (t : String) :
    can_transition (some "deferred") t = true ↔
      t ∈ ["deferred", "rerunning", "comparing", "retained", "archived"] := by
  have h : normalize_status (some "deferred") = "deferred" := by decide
  have h2 : lifecycleTransitions "deferred" =
      ["deferred", "rerunning", "comparing", "retained", "archived"] := by decide
  simp only [can_transition, h, h2, decide_eq_true_eq]

/-- **C3, counterexample.** The claim says every terminal state
(`retained`, `deferred`, `archived`) admits only a self-loop or
`archived` as further transitions.  But the code's transition table lets
`deferred` move to `rerunning`: `_can_transition("deferred", "rerunning")`
is `True`, and `rerunning` is neither `deferred` nor `archived`. -/
theorem c3_counterexample_deferred_to_rerunning :
    can_transition (some "deferred") "rerunning" = true ∧
    ¬("rerunning" = "deferred" ∨ "rerunning" = "archived") := by
  refine ⟨by rfl, ?_⟩
  rintro (h | h) <;> exact absurd h (by decide)

/-- **C3, amended.** Once an experiment is `retained` or `archived`, the
transition predicate admits only a self-loop or `archived`; from
`deferred` it additionally admits `rerunning`, `comparing` and
`retained`.  The status-updating operations respect the table: the
compare endpoint's `_persist_update` coerces any disallowed request back
to the current status (so from `retained`/`archived` it can only keep the
status or archive it), and the retain endpoint refuses (HTTP 409) any
decision whose target state the table disallows. -/
theorem c3_amended_terminal_transitions :
    (∀ t : String, can_transition (some "retained") t = true ↔
      (t = "retained" ∨ t = "archived")) ∧
    (∀ t : String, can_transition (some "archived") t = true ↔ t = "archived") ∧
    (∀ t : String, can_transition (some "deferred") t = true ↔
      t ∈ ["deferred", "rerunning", "comparing", "retained", "archived"]) ∧
    (∀ t : String, persistUpdateStatus "retained" t = "retained" ∨
      persistUpdateStatus "retained" t = "archived") ∧
    (∀ t : String, persistUpdateStatus "archived" t = "archived") ∧
    (∀ d : String, retainOutcome "retained" d = none ∨
      retainOutcome "retained" d = some "retained" ∨
      retainOutcome "retained" d = some "archived") ∧
    (∀ d : String, retainOutcome "archived" d = none ∨
      retainOutcome "archived" d = some "archived") := by
  refine ⟨can_transition_retained, can_transition_archived, can_transition_deferred,
    ?_, ?_, ?_, ?_⟩
  · intro t
    unfold persistUpdateStatus
    by_cases h : can_transition (some "retained")
        (normalize_status (some t) "retained") = true
    · rcases (can_transition_retained _).mp h with h' | h' <;>
        simp [h, h']
    · simp [h]
  · intro t
    unfold persistUpdateStatus
    by_cases h : can_transition (some "archived")
        (normalize_status (some t) "archived") = true
    · have h' := (can_transition_archived _).mp h
      simp [h, h']
    · simp [h]
  · intro d
    unfold retainOutcome
    by_cases h : can_transition (some "retained") (retainNextStatus d) = true
    · rcases (can_transition_retained _).mp h with h' | h' <;> simp [h, h']
    · simp [h]
  · intro d
    unfold retainOutcome
    by_cases h : can_transition (some "archived") (retainNextStatus d) = true
    · have h' := (can_transition_archived _).mp h
      simp [h, h']
    · simp [h]

/-- Witness for C3's amended theorem at concrete inputs: from `retained`,
moving to `archived` is allowed, and a requested move back to `rerunning`
is coerced to staying `retained` by `_persist_update`. -/
theorem c3_amended_terminal_transitions_witness :
    can_transition (some "retained") "archived" = true ∧
    (persistUpdateStatus "retained" "rerunning" = "retained" ∨
      persistUpdateStatus "retained" "rerunning" = "archived") :=
  ⟨(c3_amended_terminal_transitions.1 "archived").mpr (Or.inr rfl),
    c3_amended_terminal_transitions.2.2.2.1 "rerunning"⟩

/-! ## C4 — Maestro-fallback effort routing -/

/-- `classify_complexity` only ever returns one of the three
`EFFORT_MAP` keys, so the `EFFORT_MAP[complexity]` indexing is total. -/
theorem classify_complexity_mem (q : String) :
    classify_complexity q ∈ ["simple", "standard", "complex"] := by
  unfold classify_complexity
  split_ifs <;> simp

/-- **C4, counterexample.** The claim says that on Maestro
timeout/parse-failure all three primaries get the table effort — for
`"hello"` (classified `simple`) all three at `medium`.  The code instead
hardcodes the `deep_thinker` default to `"max"`: the fallback deployment
for `"hello"` is `deep_thinker@max, contrarian@medium, verifier@medium`,
and no `deep_thinker@medium` assignment occurs. -/
theorem c4_counterexample_deep_thinker_gets_max :
    primaryDeployment [] "hello" =
      [("deep_thinker", "max"), ("contrarian", "medium"), ("verifier", "medium")] ∧
    ("deep_thinker", "medium") ∉ primaryDeployment [] "hello" := by
  constructor
  · decide
  · decide

/-- **C4, amended.** When the planner times out or its plan fails to
parse (empty deployment plan), the coordinator deploys all three
primaries; `contrarian` and `verifier` receive the effort from the fixed
table (`simple→medium`, `standard→high`, `complex→max`) applied to the
regex classification of the query, while `deep_thinker` always receives
`"max"`.  For the input `"hello"` the classification is `simple`, so
`contrarian` and `verifier` run at `medium` and `deep_thinker` at `max`. -/
theorem c4_amended_fallback_effort_routing :
    (∀ query : String, primaryDeployment [] query =
      [("deep_thinker", "max"),
       ("contrarian", (effortMapLookup (classify_complexity query)).getD "high"),
       ("verifier", (effortMapLookup (classify_complexity query)).getD "high")]) ∧
    (∀ query : String, classify_complexity query ∈ ["simple", "standard", "complex"]) ∧
    classify_complexity "hello" = "simple" ∧
    effortMapLookup "simple" = some "medium" ∧
    effortMapLookup "standard" = some "high" ∧
    effortMapLookup "complex" = some "max" := by
  refine ⟨fun query => rfl, classify_complexity_mem, by decide, by decide, by decide,
    by decide⟩

/-! ## C2 — swarm pipeline result shape -/

/-- `_backfill_tokens` is a no-op without a persistence gateway. -/
theorem backfill_tokens_none (rs : List AgentResult) :
    backfill_tokens false rs = Except.ok () := by
  cases rs <;> rfl

/-- The per-primary conversion keeps the agent tag. -/
theorem phase1Result_agent (timeoutSeconds : ℕ) (p : AgentName × RunOutcome) :
    (phase1Result timeoutSeconds p).agent = p.1 := by
  rcases p with ⟨a, o⟩
  cases o <;> rfl

/-- The per-primary conversion only produces the three statuses. -/
theorem phase1Result_status (timeoutSeconds : ℕ) (p : AgentName × RunOutcome) :
    (phase1Result timeoutSeconds p).status ∈ ["completed", "timeout", "error"] := by
  rcases p with ⟨a, o⟩
  cases o <;> simp [phase1Result, run_with_timeout]

/-- The per-agent wrapper only produces the three statuses. -/
theorem run_with_timeout_status (agent : AgentName) (timeoutSeconds : ℕ)
    (o : RunOutcome) :
    (run_with_timeout agent timeoutSeconds o).status ∈
      ["completed", "timeout", "error"] := by
  cases o <;> simp [run_with_timeout]

/-- **C2** (first half of the code-bug record: the claimed behaviour, which
holds when no persistence gateway is configured).  The pipeline returns a
fully-shaped list: one entry per selected primary in order, plus the
synthesizer and metacognition entries, each with status in
`{completed, timeout, error}` — regardless of which agents completed,
timed out, raised, or were cancelled. -/
theorem c2_pipeline_shape_without_persistence
    (timeoutSeconds : ℕ) (primaries : List (AgentName × RunOutcome))
    (synthOutcome metaOutcome : RunOutcome) :
    ∃ rs : List AgentResult,
      pipelineAgentResults false timeoutSeconds primaries synthOutcome metaOutcome =
        Except.ok rs ∧
      rs.map (fun r => r.agent) =
        primaries.map (fun p => p.1) ++
          [AgentName.synthesizer, AgentName.metacognition] ∧
      (∀ r ∈ rs, r.status ∈ ["completed", "timeout", "error"]) := by
  refine ⟨(primaries.map (phase1Result timeoutSeconds)) ++
    [run_with_timeout AgentName.synthesizer timeoutSeconds synthOutcome,
     run_with_timeout AgentName.metacognition timeoutSeconds metaOutcome], ?_, ?_, ?_⟩
  · simp only [pipelineAgentResults, backfill_tokens_none]
  · simp only [List.map_append, List.map_map, List.map_cons, List.map_nil]
    congr 1
    · simp only [List.map_inj_left, Function.comp_apply]
      intro p _
      exact phase1Result_agent timeoutSeconds p
    · cases synthOutcome <;> cases metaOutcome <;> rfl
  · intro r hr
    rcases List.mem_append.mp hr with h1 | h1
    · rcases List.mem_map.mp h1 with ⟨p, _, rfl⟩
      exact phase1Result_status timeoutSeconds p
    · simp only [List.mem_cons, List.not_mem_nil, or_false] at h1
      rcases h1 with rfl | rfl
      · exact run_with_timeout_status _ _ _
      · exact run_with_timeout_status _ _ _

/-- Witness for `c2_pipeline_shape_without_persistence` at a concrete run
with one timeout and one crash. -/
theorem c2_pipeline_shape_without_persistence_witness :
    ∃ rs : List AgentResult,
      pipelineAgentResults false 120
          [(AgentName.deep_thinker, RunOutcome.timesOut),
           (AgentName.contrarian, RunOutcome.raises "boom"),
           (AgentName.verifier, RunOutcome.completes "r" "c" (4/5) ["n"] 10 7)]
          (RunOutcome.completes "s" "sc" (1/2) ["m"] 5 3)
          RunOutcome.timesOut =
        Except.ok rs ∧
      rs.map (fun r => r.agent) =
        [AgentName.deep_thinker, AgentName.contrarian, AgentName.verifier,
         AgentName.synthesizer, AgentName.metacognition] ∧
      (∀ r ∈ rs, r.status ∈ ["completed", "timeout", "error"]) :=
  c2_pipeline_shape_without_persistence 120
    [(AgentName.deep_thinker, RunOutcome.timesOut),
     (AgentName.contrarian, RunOutcome.raises "boom"),
     (AgentName.verifier, RunOutcome.completes "r" "c" (4/5) ["n"] 10 7)]
    (RunOutcome.completes "s" "sc" (1/2) ["m"] 5 3) RunOutcome.timesOut

/-- **C2** (second half of the code-bug record: the failing input).  With
a persistence gateway configured, a single agent timeout makes
`_backfill_tokens` evaluate `result.input_tokens_used` on a result whose
`tokens_used` is 0 — an attribute `AgentResult` does not define — so the
pipeline aborts with `AttributeError` instead of returning the
fully-shaped response the claim promises. -/
theorem c2_backfill_crash_on_timeout_with_persistence :
    pipelineAgentResults true 120
        [(AgentName.deep_thinker,
          RunOutcome.completes "r" "c" (9/10) ["n1"] 100 5),
         (AgentName.contrarian, RunOutcome.timesOut),
         (AgentName.verifier, RunOutcome.completes "r" "c" (4/5) ["n2"] 50 4)]
        (RunOutcome.completes "s" "sc" (7/10) ["n3"] 30 3)
        (RunOutcome.completes "m" "mc" (3/5) ["n4"] 20 2) =
      Except.error "AttributeError: AgentResult has no field input_tokens_used" := by
  rfl

/-! ## C6 — cross-session rehydration preference -/

/-- **C6.** In rehydration candidate selection: if at least one
deduplicated candidate comes from a different session than the current
one, the selected top-4 contains only such cross-session candidates
(same-session candidates are dropped before the `[:4]` truncation);
if every candidate is same-session, the top-4 is the prefix of the full
ranked list. -/
theorem c6_cross_session_preference (ranked : List Candidate) (sessionId : String) :
    ((∃ c ∈ ranked, c.session_id ≠ sessionId) →
      ∀ c ∈ selected_rows ranked sessionId, c.session_id ≠ sessionId) ∧
    ((∀ c ∈ ranked, c.session_id = sessionId) →
      selected_rows ranked sessionId = ranked.take 4) := by
  constructor
  · rintro ⟨c₀, hc₀, hne⟩ c hc
    have hne' : ¬(cross_session_ranked ranked sessionId).isEmpty = true := by
      simp only [List.isEmpty_iff, cross_session_ranked]
      intro hnil
      have : c₀ ∈ ranked.filter (fun c => c.session_id ≠ sessionId) := by
        simp only [List.mem_filter, decide_eq_true_eq]
        exact ⟨hc₀, hne⟩
      rw [hnil] at this
      cases this
    rw [selected_rows, if_neg hne'] at hc
    have hc' := List.mem_of_mem_take hc
    have := List.mem_filter.mp hc'
    simpa using this.2
  · intro hall
    have hnil : cross_session_ranked ranked sessionId = [] := by
      rw [cross_session_ranked, List.filter_eq_nil_iff]
      intro c hc
      simp [hall c hc]
    rw [selected_rows, hnil]
    simp

/-- Witness for C6 at a concrete input (scenario 6 of the spec): one
same-session candidate outrangs two cross-session ones, yet the selected
rows contain only the cross-session candidates. -/
theorem c6_cross_session_preference_witness :
    (∃ c ∈ [(⟨"artifact", "a1", "cur", "t1", "h1", 95/100, 4/5, 1, 0, 9/10⟩ : Candidate),
            ⟨"artifact", "a2", "other", "t2", "h2", 91/100, 7/10, 1, 0, 85/100⟩,
            ⟨"artifact", "a3", "other", "t3", "h3", 88/100, 3/5, 1, 0, 8/10⟩],
        c.session_id ≠ "cur") ∧
    (∀ c ∈ selected_rows
        [(⟨"artifact", "a1", "cur", "t1", "h1", 95/100, 4/5, 1, 0, 9/10⟩ : Candidate),
         ⟨"artifact", "a2", "other", "t2", "h2", 91/100, 7/10, 1, 0, 85/100⟩,
         ⟨"artifact", "a3", "other", "t3", "h3", 88/100, 3/5, 1, 0, 8/10⟩] "cur",
      c.session_id ≠ "cur") := by
  have hex : ∃ c ∈ [(⟨"artifact", "a1", "cur", "t1", "h1", 95/100, 4/5, 1, 0, 9/10⟩ : Candidate),
            ⟨"artifact", "a2", "other", "t2", "h2", 91/100, 7/10, 1, 0, 85/100⟩,
            ⟨"artifact", "a3", "other", "t3", "h3", 88/100, 3/5, 1, 0, 8/10⟩],
        c.session_id ≠ "cur" := by
    refine ⟨⟨"artifact", "a2", "other", "t2", "h2", 91/100, 7/10, 1, 0, 85/100⟩,
      ?_, by decide⟩
    simp
  exact ⟨hex, (c6_cross_session_preference _ "cur").1 hex⟩

/-! ## C7 — composite score and ranking determinism -/

/-- **C7.** The composite candidate score is exactly
`0.60·similarity + 0.25·importance + 0.10·recency + 0.05·retention-bonus`;
the recency term equals `max(0, 1 − age_days/30)` (the `min` in the code
is redundant because ages are clamped nonnegative); the retention bonus
is 1.0 for an artifact whose snapshot records decision `"retain"`; and
the stable descending ranking of a candidate set is a pure function of
the per-candidate quadruple (similarity, importance, recency, bonus). -/
theorem c7_composite_score_and_determinism :
    (∀ s i r b : ℚ, compute_candidate_score s i r b =
      60/100 * s + 25/100 * i + 10/100 * r + 5/100 * b) ∧
    (∀ now ts : ℚ, recency_score now (some ts) =
      max 0 (1 - (max 0 (now - ts) / 86400) / 30)) ∧
    (∀ m : AttrMap, lookupAttr m "retention_decision" = some (Val.str "retain") →
      artifactRetainedBonus (some m) = 1) ∧
    (∀ l₁ l₂ : List Candidate,
      (∀ c ∈ l₁, c.score = compute_candidate_score c.similarity c.importance
        c.recency c.retained_policy_bonus) →
      (∀ c ∈ l₂, c.score = compute_candidate_score c.similarity c.importance
        c.recency c.retained_policy_bonus) →
      l₁.map scoreInputs = l₂.map scoreInputs →
      (rankCandidates l₁).map scoreInputs = (rankCandidates l₂).map scoreInputs) := by
  refine ⟨fun s i r b => rfl, ?_, ?_, ?_⟩
  · intro now ts
    have hage : (0 : ℚ) ≤ max 0 (now - ts) := le_max_left 0 _
    have hnn : (0 : ℚ) ≤ max 0 (now - ts) / 86400 / 30 := by positivity
    have hmin : min 1 (1 - max 0 (now - ts) / 86400 / 30) =
        1 - max 0 (now - ts) / 86400 / 30 :=
      min_eq_right (by linarith)
    simp only [recency_score]
    rw [hmin]
  · intro m hm
    simp [artifactRetainedBonus, hm]
  · intro l₁ l₂ h₁ h₂ hmap
    have key : ∀ (l : List Candidate),
        (∀ c ∈ l, c.score = compute_candidate_score c.similarity c.importance
          c.recency c.retained_policy_bonus) →
        (rankCandidates l).map scoreInputs =
          (l.map scoreInputs).mergeSort (fun p q =>
            decide (compute_candidate_score q.1 q.2.1 q.2.2.1 q.2.2.2 ≤
              compute_candidate_score p.1 p.2.1 p.2.2.1 p.2.2.2)) := by
      intro l hl
      exact List.map_mergeSort (fun a ha b hb => by
        rw [hl a ha, hl b hb]
        rfl)
    rw [key l₁ h₁, key l₂ h₂, hmap]

/-- Witness for C7 at concrete inputs: the score of a concrete quadruple,
a concrete recency, and a concrete two-candidate ranking agreement. -/
theorem c7_composite_score_and_determinism_witness :
    compute_candidate_score (9/10) (1/2) 1 0 =
      60/100 * (9/10) + 25/100 * (1/2) + 10/100 * 1 + 5/100 * 0 ∧
    recency_score 86400 (some 0) = max 0 (1 - (max 0 (86400 - 0) / 86400) / 30) ∧
    artifactRetainedBonus (some [("retention_decision", Val.str "retain")]) = 1 := by
  refine ⟨c7_composite_score_and_determinism.1 (9/10) (1/2) 1 0,
    c7_composite_score_and_determinism.2.1 86400 0,
    c7_composite_score_and_determinism.2.2.1 _ ?_⟩
  rfl

/-! ## C9 — publishing with no subscribers -/

/-- **C9, counterexample.** Publishing to a session with no registered
queues is not a complete no-op: `publish` stamps the session's
last-activity timestamp before looking at the subscriber list, so the bus
state changes (and an entry is created for a previously unseen session). -/
theorem c9_counterexample_publish_stamps_activity :
    publish ⟨[], [], [], []⟩ "s" 5 0 (BusEvent.typed "e") ≠
      (⟨[], [], [], []⟩ : EventBus) ∧
    (publish ⟨[], [], [], []⟩ "s" 5 0 (BusEvent.typed "e")).session_timestamps =
      [("s", 5)] := by
  constructor
  · intro h
    have h2 := congrArg EventBus.session_timestamps h
    have h3 : ([("s", 5)] : List (String × Int)) = [] := h2
    cases h3
  · rfl

/-- **C9, amended.** Publishing to a session with no registered
subscriber queues delivers nothing, increments no drop counter and leaves
the subscriber registry, drop counts and drop log unchanged; the one
state change is stamping the session's last-activity timestamp
(`_session_timestamps[session_id] = now`). -/
theorem upsertKey_lookup_self {α : Type} (m : List (String × α)) (k : String)
    (v : α) (hkeys : (m.map Prod.fst).Nodup) (hl : lookupKey m k = some v) :
    upsertKey m k v = m := by
  have hfind : ∃ p₀, m.find? (fun p => p.1 == k) = some p₀ ∧ p₀.2 = v := by
    simp only [lookupKey, Option.map_eq_some'] at hl
    rcases hl with ⟨p₀, hp₀, hv⟩
    exact ⟨p₀, hp₀, hv⟩
  rcases hfind with ⟨p₀, hp₀, hv⟩
  have hp₀k : p₀.1 = k := by
    have := List.find?_some hp₀
    simpa using this
  have hp₀mem : p₀ ∈ m := List.mem_of_find?_eq_some hp₀
  have hany : m.any (fun p => p.1 == k) = true := by
    rw [List.any_eq_true]
    exact ⟨p₀, hp₀mem, by simpa using hp₀k⟩
  rw [upsertKey, if_pos hany]
  conv_rhs => rw [← List.map_id m]
  apply List.map_congr_left
  intro p hp
  by_cases hpk : p.1 = k
  · have hpeq : p = p₀ := by
      have hinj := List.inj_on_of_nodup_map hkeys
      exact hinj hp hp₀mem (by rw [hpk, hp₀k])
    have : (k, v) = p := by
      have h2 : p.2 = v := by rw [hpeq, hv]
      have h1 : p.1 = k := hpk
      calc (k, v) = (p.1, p.2) := by rw [h1, h2]
        _ = p := rfl
    simp [hpk, this]
  · simp [hpk]

theorem c9_amended_publish_no_subscribers
    (bus : EventBus) (sessionId : String) (nowDt : Int) (monoNow : ℚ)
    (ev : BusEvent)
    (hkeys : (bus.subscribers.map Prod.fst).Nodup)
    (hnone : lookupKey bus.subscribers sessionId = none ∨
      lookupKey bus.subscribers sessionId = some []) :
    publish bus sessionId nowDt monoNow ev =
      { bus with session_timestamps :=
          upsertKey bus.session_timestamps sessionId nowDt } := by
  rcases hnone with hn | hn
  · simp [publish, hn]
  · have hups : upsertKey bus.subscribers sessionId ([] : List PyQueue) =
        bus.subscribers :=
      upsertKey_lookup_self bus.subscribers sessionId [] hkeys hn
    simp [publish, hn, hups]

/-- Witness for C9's amended theorem: a bus whose only registered session
has an empty queue list keeps everything but its activity stamp. -/
theorem c9_amended_publish_no_subscribers_witness :
    publish ⟨[("s", [])], [("s", 1)], [], []⟩ "s" 7 0 (BusEvent.rawDict "e") =
      ⟨[("s", [])], [("s", 7)], [], []⟩ := by
  have h := c9_amended_publish_no_subscribers ⟨[("s", [])], [("s", 1)], [], []⟩
    "s" 7 0 (BusEvent.rawDict "e") (by simp) (Or.inr (by rfl))
  rw [h]
  rfl

/-! ## C5 — compare in-flight deduplication -/

/-- **C5, counterexample.** The first compare call on an experiment with
no stored comparison persists the *pending* comparison placeholder and
moves the row to `rerunning` before spawning the background rerun.  A
second force-less compare call issued while that rerun is still in flight
therefore sees `comparison_result` present, takes the existing-result
fast path — returning mode `existing_result`, *not* an inflight marker —
and mutates the stored state by coercing the status from `rerunning` to
`comparing`. -/
theorem c5_counterexample_second_request_takes_fast_path :
    compareEndpoint ⟨"promoted", none, some "n1", some "use caching"⟩ false
        ⟨false, true, none, none⟩ =
      ⟨CompareMode.asyncStarted,
        ⟨"rerunning", some CompRes.pending, some "n1", some "use caching"⟩,
        true, true⟩ ∧
    (compareEndpoint ⟨"rerunning", some CompRes.pending, some "n1",
        some "use caching"⟩ true ⟨false, true, none, none⟩).mode =
      CompareMode.existingResult ∧
    (compareEndpoint ⟨"rerunning", some CompRes.pending, some "n1",
        some "use caching"⟩ true ⟨false, true, none, none⟩).exp.status =
      "comparing" ∧
    CompareMode.existingResult ≠ CompareMode.inflightMode ∧
    CompareMode.existingResult ≠ CompareMode.alreadyRerunning ∧
    "comparing" ≠ "rerunning" := by
  refine ⟨rfl, rfl, rfl, by decide, by decide, by decide⟩

/-- **C5, amended.** While a compare rerun for an experiment is in
flight, a further compare request without the force flag never spawns a
second background rerun and never removes the in-flight entry; a request
that reaches the in-flight check (no stored comparison, status not
`rerunning`, rerun allowed, checkpoint data available) returns the
`inflight` marker and leaves the row unchanged.  (A request that instead
observes the persisted pending placeholder takes the existing-result fast
path, which may coerce the status to `comparing` — see the
counterexample.)  The in-flight entry is removed when the background
rerun finishes, successfully or not. -/
theorem c5_amended_inflight_dedup
    (exp : Experiment) (req : CompareReq) (hforce : req.force_rerun = false) :
    ((compareEndpoint exp true req).spawned = false ∧
     (compareEndpoint exp true req).inflightAfter = true) ∧
    (∀ (n c : String), n ≠ "" → c ≠ "" →
      exp.comparison = none → exp.status ≠ "rerunning" →
      req.rerun_if_missing = true →
      req.node_id = some n → req.correction = some c →
      compareEndpoint exp true req =
        ⟨CompareMode.inflightMode, exp, true, false⟩) ∧
    (∀ success : Bool, (runCompareFinish exp success).2 = false) := by
  refine ⟨?_, ?_, ?_⟩
  · unfold compareEndpoint
    rw [hforce]
    split_ifs <;> first
      | exact ⟨rfl, rfl⟩
      | simp_all
  · intro n c hn hc hcomp hstat hmiss hreqn hreqc
    have hrn : resolvedNodeId exp req = n := by
      unfold resolvedNodeId
      rw [hreqn]
      simp [hn]
    have hrc : resolvedCorrection exp req = c := by
      unfold resolvedCorrection
      rw [hreqc]
      simp [hc]
    unfold compareEndpoint
    rw [hforce, hcomp, hmiss, hrn, hrc]
    simp [hn, hc, hstat]
  · intro success
    cases success <;> simp [runCompareFinish]

/-- Witness for C5's amended theorem at concrete inputs: with the rerun
in flight, a fresh force-less request on a not-yet-updated row returns
the inflight marker, spawns nothing and keeps the in-flight entry. -/
theorem c5_amended_inflight_dedup_witness :
    compareEndpoint ⟨"promoted", none, some "n1", some "fix"⟩ true
        ⟨false, true, some "n2", some "correction"⟩ =
      ⟨CompareMode.inflightMode, ⟨"promoted", none, some "n1", some "fix"⟩,
        true, false⟩ ∧
    (compareEndpoint ⟨"promoted", none, some "n1", some "fix"⟩ true
        ⟨false, true, some "n2", some "correction"⟩).spawned = false :=
  ⟨(c5_amended_inflight_dedup ⟨"promoted", none, some "n1", some "fix"⟩
      ⟨false, true, some "n2", some "correction"⟩ rfl).2.1 "n2" "correction"
      (by decide) (by decide) rfl (by decide) rfl rfl rfl,
    ((c5_amended_inflight_dedup ⟨"promoted", none, some "n1", some "fix"⟩
      ⟨false, true, some "n2", some "correction"⟩ rfl).1).1⟩

/-! ## Reachability: `reachB`/`hasPathB` compute `nx.has_path` -/

/-- Soundness: a positive `reachB` answer yields a path. -/
theorem reachB_sound (es : List (String × String)) :
    ∀ (n : ℕ) (s t : String), reachB es n s t = true →
      Relation.ReflTransGen (fun a b => (a, b) ∈ es) s t := by
  intro n
  induction n with
  | zero =>
    intro s t h
    simp only [reachB, beq_iff_eq] at h
    exact h ▸ Relation.ReflTransGen.refl
  | succ m ih =>
    intro s t h
    simp only [reachB, Bool.or_eq_true, beq_iff_eq, List.any_eq_true,
      Bool.and_eq_true] at h
    rcases h with rfl | ⟨e, he, he1, hr⟩
    · exact Relation.ReflTransGen.refl
    · have he1' : e.1 = s := by simpa using he1
      have hstep : (s, e.2) ∈ es := by
        rw [← he1']
        simpa using he
      exact Relation.ReflTransGen.head hstep (ih _ _ hr)

/-- Every element of an edge chain is the target of some edge. -/
theorem chain_mem_targets (es : List (String × String)) :
    ∀ (l : List String) (s : String),
      List.Chain (fun a b => (a, b) ∈ es) s l →
      ∀ x ∈ l, x ∈ es.map Prod.snd := by
  intro l
  induction l with
  | nil => intro s _ x hx; cases hx
  | cons b l' ih =>
    intro s hch x hx
    rcases List.chain_cons.mp hch with ⟨hsb, hch'⟩
    rcases List.mem_cons.mp hx with rfl | hx'
    · exact List.mem_map.mpr ⟨(s, x), hsb, rfl⟩
    · exact ih b hch' x hx'

/-- A chain of length `≤ n` is found by `reachB` with fuel `n`. -/
theorem reachB_of_chain (es : List (String × String)) :
    ∀ (l : List String) (s t : String) (n : ℕ),
      List.Chain (fun a b => (a, b) ∈ es) s l →
      (s :: l).getLast (List.cons_ne_nil _ _) = t →
      l.length ≤ n → reachB es n s t = true := by
  intro l
  induction l with
  | nil =>
    intro s t n _ hlast _
    have hst : s = t := by simpa using hlast
    cases n <;> simp [reachB, hst]
  | cons b l' ih =>
    intro s t n hch hlast hlen
    rcases List.chain_cons.mp hch with ⟨hsb, hch'⟩
    rcases n with _ | m
    · simp at hlen
    · simp only [reachB, Bool.or_eq_true, List.any_eq_true, Bool.and_eq_true]
      right
      refine ⟨(s, b), hsb, by simp, ?_⟩
      refine ih b t m hch' ?_ (by simpa using hlen)
      rw [← hlast]
      exact (List.getLast_cons (List.cons_ne_nil _ _)).symm

/-- A list that is not nodup contains a repeated element, split out. -/
theorem not_nodup_split {α : Type} :
    ∀ (l : List α), ¬l.Nodup → ∃ (l₁ : List α) (x : α) (l₂ l₃ : List α),
      l = l₁ ++ x :: (l₂ ++ x :: l₃) := by
  intro l
  induction l with
  | nil => intro h; exact absurd List.nodup_nil h
  | cons a l ih =>
    intro h
    by_cases ha : a ∈ l
    · rcases List.append_of_mem ha with ⟨p, q, rfl⟩
      exact ⟨[], a, p, q, rfl⟩
    · have hnl : ¬l.Nodup := fun hn => h (List.nodup_cons.mpr ⟨ha, hn⟩)
      rcases ih hnl with ⟨l₁, x, l₂, l₃, rfl⟩
      exact ⟨a :: l₁, x, l₂, l₃, rfl⟩

/-- The last element of `a :: (l ++ b :: l')` is the last of `b :: l'`. -/
theorem getLast_cons_append {α : Type} (a b : α) (l l' : List α) :
    (a :: (l ++ b :: l')).getLast (List.cons_ne_nil _ _) =
      (b :: l').getLast (List.cons_ne_nil _ _) := by
  induction l generalizing a with
  | nil => rw [List.nil_append, List.getLast_cons (List.cons_ne_nil _ _)]
  | cons c l ih =>
    rw [List.cons_append, List.getLast_cons (by simp)]
    exact ih c

/-- Cutting the loop between two occurrences of `x` keeps a chain with
the same endpoints. -/
theorem chain_splice {α : Type} (r : α → α → Prop) (s x : α) (l₁ l₂ l₃ : List α)
    (h : List.Chain r s (l₁ ++ x :: (l₂ ++ x :: l₃))) :
    List.Chain r s (l₁ ++ x :: l₃) ∧
    (s :: (l₁ ++ x :: l₃)).getLast (List.cons_ne_nil _ _) =
      (s :: (l₁ ++ x :: (l₂ ++ x :: l₃))).getLast (List.cons_ne_nil _ _) := by
  constructor
  · have h1 := (@List.chain_split _ r s x l₁ (l₂ ++ x :: l₃)).mp h
    have h2 := (@List.chain_split _ r x x l₂ l₃).mp h1.2
    exact (@List.chain_split _ r s x l₁ l₃).mpr ⟨h1.1, h2.2⟩
  · rw [getLast_cons_append s x l₁ l₃, getLast_cons_append s x l₁ (l₂ ++ x :: l₃),
      getLast_cons_append x x l₂ l₃]

/-- Every chain can be shortened to a duplicate-free chain with the same
endpoints. -/
theorem chain_shorten {α : Type} (r : α → α → Prop) :
    ∀ (n : ℕ) (l : List α) (s : α), l.length ≤ n → List.Chain r s l →
      ∃ l' : List α, l'.Nodup ∧ (∀ x ∈ l', x ∈ l) ∧ List.Chain r s l' ∧
        (s :: l').getLast (List.cons_ne_nil _ _) =
          (s :: l).getLast (List.cons_ne_nil _ _) := by
  intro n
  induction n with
  | zero =>
    intro l s hlen _
    have hl : l = [] := List.length_eq_zero.mp (Nat.le_zero.mp hlen)
    subst hl
    exact ⟨[], List.nodup_nil, fun x hx => absurd hx (List.not_mem_nil x),
      List.Chain.nil, rfl⟩
  | succ m ih =>
    intro l s hlen hch
    by_cases hnd : l.Nodup
    · exact ⟨l, hnd, fun x hx => hx, hch, rfl⟩
    · rcases not_nodup_split l hnd with ⟨l₁, x, l₂, l₃, rfl⟩
      have hsp := chain_splice r s x l₁ l₂ l₃ hch
      have hlen' : (l₁ ++ x :: l₃).length ≤ m := by
        simp only [List.length_append, List.length_cons] at hlen ⊢
        omega
      rcases ih (l₁ ++ x :: l₃) s hlen' hsp.1 with ⟨l', hnd', hsub, hch', hlast'⟩
      refine ⟨l', hnd', ?_, hch', by rw [hlast', hsp.2]⟩
      intro y hy
      have hmem := hsub y hy
      simp only [List.mem_append, List.mem_cons] at hmem ⊢
      tauto

/-- Completeness: a path is found by `reachB` with fuel `|es|` (a
duplicate-free chain's elements are distinct edge targets, so it is no
longer than the edge list). -/
theorem reachB_complete (es : List (String × String)) (s t : String)
    (h : Relation.ReflTransGen (fun a b => (a, b) ∈ es) s t) :
    reachB es es.length s t = true := by
  rcases List.exists_chain_of_relationReflTransGen h with ⟨l, hch, hlast⟩
  rcases chain_shorten (fun a b => (a, b) ∈ es) l.length l s le_rfl hch with
    ⟨l', hnd, _, hch', hlast'⟩
  have hbound : l'.length ≤ es.length := by
    have hsubt : ∀ x ∈ l', x ∈ es.map Prod.snd :=
      chain_mem_targets es l' s hch'
    have h1 : l'.toFinset.card = l'.length := List.toFinset_card_of_nodup hnd
    have h2 : l'.toFinset ⊆ (es.map Prod.snd).toFinset := by
      intro a ha
      rw [List.mem_toFinset] at ha ⊢
      exact hsubt a ha
    calc l'.length = l'.toFinset.card := h1.symm
      _ ≤ (es.map Prod.snd).toFinset.card := Finset.card_le_card h2
      _ ≤ (es.map Prod.snd).length := List.toFinset_card_le _
      _ = es.length := List.length_map _ _
  exact reachB_of_chain es l' s t es.length hch' (by rw [hlast', hlast]) hbound

/-- `nx.has_path` computes exactly path existence. -/
theorem hasPathB_iff_star (g : PyGraph) (s t : String) :
    hasPathB g s t = true ↔ GStar g s t := by
  constructor
  · intro h
    exact reachB_sound (edgePairs g) _ s t h
  · intro h
    exact reachB_complete (edgePairs g) s t h

/-! ## The graph invariant along add-node/add-edge sequences -/

/-- `add_node` (and any `G.add_node`) does not touch the edges. -/
theorem addNodePy_edges (g : PyGraph) (k : String) (attrs : AttrMap) :
    (addNodePy g k attrs).edges = g.edges := by
  unfold addNodePy
  split <;> rfl

/-- `G.add_node` preserves and extends node-key membership. -/
theorem hasNodeB_addNodePy (g : PyGraph) (k k' : String) (attrs : AttrMap)
    (h : hasNodeB g k' = true) : hasNodeB (addNodePy g k attrs) k' = true := by
  unfold addNodePy
  split
  · simp only [hasNodeB, List.any_map, List.any_eq_true] at h ⊢
    rcases h with ⟨p, hp, hpk⟩
    refine ⟨p, hp, ?_⟩
    simp only [Function.comp_apply]
    split <;> simpa using hpk
  · simp only [hasNodeB, List.any_eq_true] at h ⊢
    rcases h with ⟨p, hp, hpk⟩
    exact ⟨p, List.mem_append_left _ hp, hpk⟩

/-- Appending node entries preserves node-key membership. -/
theorem hasNodeB_append (g : PyGraph) (ps : List (String × AttrMap)) (k : String)
    (h : hasNodeB g k = true) :
    hasNodeB { g with nodes := g.nodes ++ ps } k = true := by
  simp only [hasNodeB, List.any_eq_true] at h ⊢
  rcases h with ⟨p, hp, hpk⟩
  exact ⟨p, List.mem_append_left _ hp, hpk⟩

/-- `ensureNode` does not touch the edges. -/
theorem ensureNode_edges (g : PyGraph) (k : String) :
    (ensureNode g k).edges = g.edges := by
  unfold ensureNode
  split <;> rfl

/-- The edge pairs after `G.add_edge(u, v)`: unchanged when the edge was
already present, else extended by exactly `(u, v)`. -/
theorem edgePairs_addEdgeRaw (g : PyGraph) (u v : String) (attrs : AttrMap) :
    edgePairs (addEdgeRaw g u v attrs) = edgePairs g ∨
    edgePairs (addEdgeRaw g u v attrs) = edgePairs g ++ [(u, v)] := by
  have hedges : (ensureNode (ensureNode g u) v).edges = g.edges := by
    rw [ensureNode_edges, ensureNode_edges]
  unfold addEdgeRaw
  split
  · left
    simp only [edgePairs, hedges, List.map_map]
    apply List.map_congr_left
    intro e _
    simp only [Function.comp_apply]
    split <;> rfl
  · right
    simp only [edgePairs, hedges, List.map_append]
    rfl

/-- A node key absent from the graph heads no edge and tails no edge
(given the endpoint invariant). -/
theorem fresh_no_edges (g : PyGraph) (u : String)
    (hend : ∀ e ∈ g.edges, hasNodeB g e.1 = true ∧ hasNodeB g e.2.1 = true)
    (hu : hasNodeB g u = false) :
    ∀ p ∈ edgePairs g, p.1 ≠ u ∧ p.2 ≠ u := by
  intro p hp
  simp only [edgePairs, List.mem_map] at hp
  rcases hp with ⟨e, he, rfl⟩
  rcases hend e he with ⟨h1, h2⟩
  constructor
  · intro heq
    have heq' : e.1 = u := heq
    rw [heq'] at h1
    rw [h1] at hu
    cases hu
  · intro heq
    have heq' : e.2.1 = u := heq
    rw [heq'] at h2
    rw [h2] at hu
    cases hu

/-- Decomposing a path in a graph extended by one edge `(u, v)`: either
the path avoids the new edge, or it reaches `u`, crosses, and continues
from `v`. -/
theorem reflTransGen_union_single {α : Type} (r : α → α → Prop) (u v : α) :
    ∀ x y : α, Relation.ReflTransGen (fun a b => r a b ∨ (a = u ∧ b = v)) x y →
      Relation.ReflTransGen r x y ∨
        (Relation.ReflTransGen r x u ∧ Relation.ReflTransGen r v y) := by
  intro x y h
  induction h with
  | refl => exact Or.inl Relation.ReflTransGen.refl
  | tail _ hstep ih =>
    rcases hstep with hr | ⟨rfl, rfl⟩
    · rcases ih with hxy | ⟨hxu, hvy⟩
      · exact Or.inl (hxy.tail hr)
      · exact Or.inr ⟨hxu, hvy.tail hr⟩
    · rcases ih with hxu | ⟨hxu, _⟩
      · exact Or.inr ⟨hxu, Relation.ReflTransGen.refl⟩
      · exact Or.inr ⟨hxu, Relation.ReflTransGen.refl⟩

/-- No path ends at a vertex with no incoming edges, except trivially. -/
theorem star_into_no_in (g : PyGraph) (u : String)
    (hno : ∀ p ∈ edgePairs g, p.2 ≠ u) :
    ∀ x, GStar g x u → x = u := by
  intro x h
  rcases Relation.ReflTransGen.cases_tail h with h1 | ⟨c, _, hstep⟩
  · exact h1.symm
  · exact absurd rfl (hno (c, u) hstep)

/-- No path starts at a vertex with no outgoing edges, except trivially. -/
theorem star_from_no_out (g : PyGraph) (u : String)
    (hno : ∀ p ∈ edgePairs g, p.1 ≠ u) :
    ∀ y, GStar g u y → u = y := by
  intro y h
  rcases Relation.ReflTransGen.cases_head h with h1 | ⟨c, hstep, _⟩
  · exact h1
  · exact absurd rfl (hno (u, c) hstep)

/-- Path existence only depends on the edge pairs. -/
theorem gstar_congr_pairs (g g' : PyGraph) (hp : edgePairs g' = edgePairs g) :
    ∀ u v, GStar g' u v ↔ GStar g u v := by
  intro u v
  unfold GStar EdgeMem
  rw [hp]

/-- One-step membership in a graph whose pairs grew by `(u, v)`. -/
theorem edgeMem_grow_iff (g g' : PyGraph) (u v : String)
    (hp : edgePairs g' = edgePairs g ++ [(u, v)]) :
    ∀ a b, EdgeMem g' a b ↔ (EdgeMem g a b ∨ (a = u ∧ b = v)) := by
  intro a b
  unfold EdgeMem
  rw [hp]
  simp [List.mem_append, Prod.ext_iff]

/-- Path decomposition in a graph whose pairs grew by `(u, v)`. -/
theorem gstar_grow_decompose (g g' : PyGraph) (u v : String)
    (hp : edgePairs g' = edgePairs g ++ [(u, v)]) :
    ∀ x y, GStar g' x y →
      GStar g x y ∨ (GStar g x u ∧ GStar g v y) := by
  intro x y h
  have hmono : ∀ a b, EdgeMem g' a b →
      (fun a b => EdgeMem g a b ∨ (a = u ∧ b = v)) a b := by
    intro a b hab
    exact (edgeMem_grow_iff g g' u v hp a b).mp hab
  have h' := Relation.ReflTransGen.mono hmono h
  exact reflTransGen_union_single (EdgeMem g) u v x y h'

/-- `hasNodeB` after `ensureNode`. -/
theorem hasNodeB_ensureNode_self (g : PyGraph) (k : String) :
    hasNodeB (ensureNode g k) k = true := by
  unfold ensureNode
  split
  · assumption
  · simp [hasNodeB]

theorem hasNodeB_ensureNode_mono (g : PyGraph) (k k' : String)
    (h : hasNodeB g k' = true) : hasNodeB (ensureNode g k) k' = true := by
  unfold ensureNode
  split
  · exact h
  · simp only [hasNodeB, List.any_eq_true] at h ⊢
    rcases h with ⟨p, hp, hpk⟩
    exact ⟨p, List.mem_append_left _ hp, hpk⟩

/-- The nodes of `addEdgeRaw` are those after ensuring both endpoints. -/
theorem addEdgeRaw_nodes (g : PyGraph) (u v : String) (attrs : AttrMap) :
    (addEdgeRaw g u v attrs).nodes = (ensureNode (ensureNode g u) v).nodes := by
  unfold addEdgeRaw
  split <;> rfl

/-- `hasNodeB` only depends on the nodes. -/
theorem hasNodeB_addEdgeRaw (g : PyGraph) (u v k : String) (attrs : AttrMap) :
    hasNodeB (addEdgeRaw g u v attrs) k =
      hasNodeB (ensureNode (ensureNode g u) v) k := by
  unfold hasNodeB
  rw [addEdgeRaw_nodes]

/-- The endpoint half of the invariant survives `addEdgeRaw`. -/
theorem addEdgeRaw_endpoints (g : PyGraph) (u v : String) (attrs : AttrMap)
    (hend : ∀ e ∈ g.edges, hasNodeB g e.1 = true ∧ hasNodeB g e.2.1 = true) :
    ∀ e ∈ (addEdgeRaw g u v attrs).edges,
      hasNodeB (addEdgeRaw g u v attrs) e.1 = true ∧
      hasNodeB (addEdgeRaw g u v attrs) e.2.1 = true := by
  intro e he
  rw [hasNodeB_addEdgeRaw, hasNodeB_addEdgeRaw]
  have hmono : ∀ k, hasNodeB g k = true →
      hasNodeB (ensureNode (ensureNode g u) v) k = true := fun k hk =>
    hasNodeB_ensureNode_mono _ _ _ (hasNodeB_ensureNode_mono _ _ _ hk)
  have hu : hasNodeB (ensureNode (ensureNode g u) v) u = true :=
    hasNodeB_ensureNode_mono _ _ _ (hasNodeB_ensureNode_self g u)
  have hv : hasNodeB (ensureNode (ensureNode g u) v) v = true :=
    hasNodeB_ensureNode_self _ v
  revert he
  unfold addEdgeRaw
  split
  · intro he
    simp only [List.mem_map] at he
    rcases he with ⟨e₀, he₀, rfl⟩
    have h₀ := hend e₀ (by
      have : (ensureNode (ensureNode g u) v).edges = g.edges := by
        rw [ensureNode_edges, ensureNode_edges]
      rw [this] at he₀
      exact he₀)
    split
    · exact ⟨hmono _ h₀.1, hmono _ h₀.2⟩
    · exact ⟨hmono _ h₀.1, hmono _ h₀.2⟩
  · intro he
    rcases List.mem_append.mp he with he₀ | he₀
    · have : (ensureNode (ensureNode g u) v).edges = g.edges := by
        rw [ensureNode_edges, ensureNode_edges]
      rw [this] at he₀
      have h₀ := hend e he₀
      exact ⟨hmono _ h₀.1, hmono _ h₀.2⟩
    · simp only [List.mem_singleton] at he₀
      subst he₀
      exact ⟨hu, hv⟩

/-- The cycle-safety invariant is preserved by every graph operation. -/
theorem graphInv_applyOp (g : PyGraph) (h : GraphInv g) (op : GraphOp) :
    GraphInv (applyOp g op) := by
  cases op with
  | node n =>
    have hedges : (add_node g n).edges = g.edges := addNodePy_edges g n.id (nodeDump n)
    have hpairs : edgePairs (add_node g n) = edgePairs g := by
      unfold edgePairs
      rw [hedges]
    show GraphInv (add_node g n)
    refine ⟨?_, ?_⟩
    · intro e he
      rw [hedges] at he
      have h₀ := h.endpoints e he
      exact ⟨hasNodeB_addNodePy g n.id e.1 (nodeDump n) h₀.1,
        hasNodeB_addNodePy g n.id e.2.1 (nodeDump n) h₀.2⟩
    · intro x y hne hcyc
      exact h.noBigCycle x y hne
        ⟨(gstar_congr_pairs g _ hpairs x y).mp hcyc.1,
         (gstar_congr_pairs g _ hpairs y x).mp hcyc.2⟩
  | edge e =>
    show GraphInv (add_edge g e).1
    unfold add_edge
    split
    · exact h
    · rename_i hcond
      set u := e.source_id with hu
      set v := e.target_id with hv
      show GraphInv (addEdgeRaw g u v (edgeDump e))
      set g' := addEdgeRaw g u v (edgeDump e) with hg'
      refine ⟨addEdgeRaw_endpoints g u v (edgeDump e) h.endpoints, ?_⟩
      rcases edgePairs_addEdgeRaw g u v (edgeDump e) with hp | hp
      · intro x y hne hcyc
        exact h.noBigCycle x y hne
          ⟨(gstar_congr_pairs g g' hp x y).mp hcyc.1,
           (gstar_congr_pairs g g' hp y x).mp hcyc.2⟩
      · -- a genuinely new pair (u, v); case on why the guard let it through
        intro x y hne hcyc
        rcases hcyc with ⟨hxy, hyx⟩
        have hdx := gstar_grow_decompose g g' u v hp x y hxy
        have hdy := gstar_grow_decompose g g' u v hp y x hyx
        by_cases hunode : hasNodeB g u = true
        · by_cases hvnode : hasNodeB g v = true
          · -- both endpoints existed: the reachability check must have failed
            have hnopath : ¬ GStar g v u := by
              intro hvu
              apply hcond
              simp only [Bool.and_eq_true]
              exact ⟨⟨hvnode, hunode⟩, (hasPathB_iff_star g v u).mpr hvu⟩
            rcases hdx with hxy' | ⟨hxu, hvy⟩
            · rcases hdy with hyx' | ⟨hyu, hvx⟩
              · exact h.noBigCycle x y hne ⟨hxy', hyx'⟩
              · exact hnopath ((hvx.trans hxy').trans hyu)
            · rcases hdy with hyx' | ⟨hyu, _⟩
              · exact hnopath ((hvy.trans hyx').trans hxu)
              · exact hnopath (hvy.trans hyu)
          · -- the target node v was fresh: it has no edges in g
            have hfresh := fresh_no_edges g v h.endpoints
              (by revert hvnode; cases hasNodeB g v <;> simp)
            have hvout : ∀ y', GStar g v y' → v = y' :=
              star_from_no_out g v (fun p hp' => (hfresh p hp').1)
            rcases hdx with hxy' | ⟨_, hvy⟩
            · rcases hdy with hyx' | ⟨_, hvx⟩
              · exact h.noBigCycle x y hne ⟨hxy', hyx'⟩
              · have hvx' : v = x := hvout x hvx
                subst hvx'
                exact hne (hvout y hxy')
            · have hvy' : v = y := hvout y hvy
              subst hvy'
              rcases hdy with hyx' | ⟨_, hvx⟩
              · exact hne ((hvout x hyx').symm)
              · exact hne ((hvout x hvx).symm)
        · -- the source node u was fresh: it has no edges in g
          have hfresh := fresh_no_edges g u h.endpoints
            (by revert hunode; cases hasNodeB g u <;> simp)
          have huin : ∀ x', GStar g x' u → x' = u :=
            star_into_no_in g u (fun p hp' => (hfresh p hp').2)
          rcases hdx with hxy' | ⟨hxu, hvy⟩
          · rcases hdy with hyx' | ⟨hyu, _⟩
            · exact h.noBigCycle x y hne ⟨hxy', hyx'⟩
            · have hyu' : y = u := huin y hyu
              subst hyu'
              exact hne (huin x hxy')
          · have hxu' : x = u := huin x hxu
            subst hxu'
            rcases hdy with hyx' | ⟨hyu, _⟩
            · exact hne (huin y hyx').symm
            · exact hne (huin y hyu).symm

/-- The invariant holds for the empty graph. -/
theorem graphInv_empty : GraphInv pyEmptyGraph := by
  refine ⟨?_, ?_⟩
  · intro e he
    cases he
  · intro x y hne hcyc
    rcases Relation.ReflTransGen.cases_head hcyc.1 with h1 | ⟨c, hstep, _⟩
    · exact hne h1
    · cases hstep

/-- The invariant holds after every operation sequence from empty. -/
theorem runOps_inv (ops : List GraphOp) : GraphInv (runOps ops) := by
  have hgen : ∀ (l : List GraphOp) (g : PyGraph), GraphInv g →
      GraphInv (l.foldl applyOp g) := by
    intro l
    induction l with
    | nil => intro g hg; exact hg
    | cons op rest ih =>
      intro g hg
      exact ih (applyOp g op) (graphInv_applyOp g hg op)
  exact hgen ops pyEmptyGraph graphInv_empty

/-- Every edge pair of the built graph was requested by some add-edge
call in the sequence. -/
theorem runOps_pairs_from_ops (ops : List GraphOp) :
    ∀ p ∈ edgePairs (runOps ops),
      ∃ e : ReasoningEdge, GraphOp.edge e ∈ ops ∧ p = (e.source_id, e.target_id) := by
  have hgen : ∀ (l : List GraphOp) (g : PyGraph) (p : String × String),
      p ∈ edgePairs (l.foldl applyOp g) →
      p ∈ edgePairs g ∨ ∃ e, GraphOp.edge e ∈ l ∧ p = (e.source_id, e.target_id) := by
    intro l
    induction l with
    | nil => intro g p hp; exact Or.inl hp
    | cons op rest ih =>
      intro g p hp
      rcases ih (applyOp g op) p hp with hmem | ⟨e, he, rfl⟩
      · cases op with
        | node n =>
          have : edgePairs (applyOp g (GraphOp.node n)) = edgePairs g := by
            show edgePairs (add_node g n) = edgePairs g
            unfold edgePairs
            exact congrArg (List.map (fun e => (e.1, e.2.1)))
              (addNodePy_edges g n.id (nodeDump n))
          rw [this] at hmem
          exact Or.inl hmem
        | edge e =>
          have : edgePairs (applyOp g (GraphOp.edge e)) = edgePairs g ∨
              edgePairs (applyOp g (GraphOp.edge e)) =
                edgePairs g ++ [(e.source_id, e.target_id)] := by
            show edgePairs (add_edge g e).1 = _ ∨ edgePairs (add_edge g e).1 = _
            unfold add_edge
            split
            · exact Or.inl rfl
            · exact edgePairs_addEdgeRaw g _ _ _
          rcases this with hsame | hgrow
          · rw [hsame] at hmem
            exact Or.inl hmem
          · rw [hgrow] at hmem
            rcases List.mem_append.mp hmem with hmem' | hmem'
            · exact Or.inl hmem'
            · simp only [List.mem_singleton] at hmem'
              exact Or.inr ⟨e, List.mem_cons_self _ _, hmem'⟩
      · exact Or.inr ⟨e, List.mem_cons_of_mem _ he, rfl⟩
  intro p hp
  rcases hgen ops pyEmptyGraph p hp with hmem | hok
  · cases hmem
  · exact hok

/-- The requested pair is present after a successful `G.add_edge`. -/
theorem pair_mem_addEdgeRaw (g : PyGraph) (u v : String) (attrs : AttrMap) :
    (u, v) ∈ edgePairs (addEdgeRaw g u v attrs) := by
  have hedges : (ensureNode (ensureNode g u) v).edges = g.edges := by
    rw [ensureNode_edges, ensureNode_edges]
  unfold addEdgeRaw
  split
  · rename_i hedge
    simp only [hasEdgeB, List.any_eq_true, Bool.and_eq_true, beq_iff_eq] at hedge
    rcases hedge with ⟨e₀, he₀, h1, h2⟩
    simp only [edgePairs, List.map_map, List.mem_map]
    refine ⟨e₀, he₀, ?_⟩
    have hcondB : (e₀.1 == u && e₀.2.1 == v) = true := by
      simp [h1, h2]
    simp [Function.comp_apply, hcondB, h1, h2]
  · simp [edgePairs]

/-- If there is no self-loop edge, the absence of two-node cycles gives
full acyclicity. -/
theorem acyclic_of_noBigCycle (g : PyGraph)
    (hbig : ∀ u v : String, u ≠ v → ¬(GStar g u v ∧ GStar g v u))
    (hself : ∀ w : String, ¬ EdgeMem g w w) :
    ∀ u : String, ¬ Relation.TransGen (EdgeMem g) u u := by
  intro u h
  rcases Relation.TransGen.head'_iff.mp h with ⟨w, hstep, hwu⟩
  by_cases hw : w = u
  · subst hw
    exact hself _ hstep
  · exact hbig u w (fun h' => hw h'.symm)
      ⟨Relation.ReflTransGen.single hstep, hwu⟩

/-! ## C1 — cycle prevention in the reasoning graph -/

/-- **C1, counterexample.** The claim's "consequently the edge set is
acyclic after every sequence of add-node/add-edge operations starting
from an empty graph" fails: the cycle check only runs when both endpoint
nodes already exist, while `networkx` silently creates missing endpoints.
Adding the self-loop edge `X → X` to the empty graph therefore succeeds
(no `CycleDetected`), and the resulting edge set contains a cycle. -/
theorem c1_counterexample_self_loop :
    (add_edge pyEmptyGraph ⟨"X", "X", EdgeRelation.leads_to, 1, []⟩).2 = false ∧
    Relation.TransGen
      (EdgeMem (runOps [GraphOp.edge ⟨"X", "X", EdgeRelation.leads_to, 1, []⟩]))
      "X" "X" := by
  constructor
  · rfl
  · apply Relation.TransGen.single
    show ("X", "X") ∈
      edgePairs (runOps [GraphOp.edge ⟨"X", "X", EdgeRelation.leads_to, 1, []⟩])
    decide

/-- **C1, amended.** For every add-edge call on a graph built by any
sequence of add-node/add-edge operations from empty: the call fails with
`CycleDetected` and leaves the graph unchanged exactly when both endpoint
nodes already exist and there is a path from the edge's target to its
source; otherwise the edge is inserted.  Consequently the edge set never
contains a cycle through two distinct nodes; and if no add-edge call in
the sequence was a self-loop (source = target), the edge set is fully
acyclic. -/
theorem c1_amended_cycle_prevention (ops : List GraphOp) :
    (∀ e : ReasoningEdge,
      ((hasNodeB (runOps ops) e.target_id = true ∧
        hasNodeB (runOps ops) e.source_id = true ∧
        GStar (runOps ops) e.target_id e.source_id) ↔
       add_edge (runOps ops) e = (runOps ops, true))) ∧
    (∀ e : ReasoningEdge, (add_edge (runOps ops) e).2 = false →
      (e.source_id, e.target_id) ∈ edgePairs (add_edge (runOps ops) e).1) ∧
    (∀ u v : String, u ≠ v →
      ¬(GStar (runOps ops) u v ∧ GStar (runOps ops) v u)) ∧
    ((∀ e : ReasoningEdge, GraphOp.edge e ∈ ops → e.source_id ≠ e.target_id) →
      ∀ u : String, ¬ Relation.TransGen (EdgeMem (runOps ops)) u u) := by
  refine ⟨?_, ?_, (runOps_inv ops).noBigCycle, ?_⟩
  · intro e
    constructor
    · rintro ⟨h1, h2, h3⟩
      have hguard : (hasNodeB (runOps ops) e.target_id &&
          hasNodeB (runOps ops) e.source_id &&
          hasPathB (runOps ops) e.target_id e.source_id) = true := by
        simp only [Bool.and_eq_true]
        exact ⟨⟨h1, h2⟩, (hasPathB_iff_star _ _ _).mpr h3⟩
      unfold add_edge
      rw [if_pos hguard]
    · intro heq
      by_cases hguard : (hasNodeB (runOps ops) e.target_id &&
          hasNodeB (runOps ops) e.source_id &&
          hasPathB (runOps ops) e.target_id e.source_id) = true
      · simp only [Bool.and_eq_true] at hguard
        exact ⟨hguard.1.1, hguard.1.2, (hasPathB_iff_star _ _ _).mp hguard.2⟩
      · exfalso
        unfold add_edge at heq
        rw [if_neg hguard] at heq
        simpa using congrArg Prod.snd heq
  · intro e hfalse
    unfold add_edge at hfalse ⊢
    by_cases hguard : (hasNodeB (runOps ops) e.target_id &&
        hasNodeB (runOps ops) e.source_id &&
        hasPathB (runOps ops) e.target_id e.source_id) = true
    · rw [if_pos hguard] at hfalse
      simp at hfalse
    · rw [if_neg hguard]
      exact pair_mem_addEdgeRaw (runOps ops) e.source_id e.target_id (edgeDump e)
  · intro hselfops u
    apply acyclic_of_noBigCycle (runOps ops) (runOps_inv ops).noBigCycle
    intro w hww
    rcases runOps_pairs_from_ops ops (w, w) hww with ⟨e, he, hpair⟩
    have h1 : e.source_id = w := (Prod.ext_iff.mp hpair.symm).1
    have h2 : e.target_id = w := (Prod.ext_iff.mp hpair.symm).2
    exact hselfops e he (h1.trans h2.symm)

/-- Witness for C1's amended theorem at the spec's concrete scenario
(add nodes A and B, edge `A → B`, then try `B → A`): the reverse edge is
rejected with the graph unchanged, and the edge set is the single pair. -/
theorem c1_amended_cycle_prevention_witness :
    add_edge (runOps
        [GraphOp.node ⟨"A", AgentName.deep_thinker, "s", "a", none, 1, [], 0⟩,
         GraphOp.node ⟨"B", AgentName.contrarian, "s", "b", none, 1, [], 0⟩,
         GraphOp.edge ⟨"A", "B", EdgeRelation.leads_to, 1, []⟩])
        ⟨"B", "A", EdgeRelation.leads_to, 1, []⟩ =
      (runOps
        [GraphOp.node ⟨"A", AgentName.deep_thinker, "s", "a", none, 1, [], 0⟩,
         GraphOp.node ⟨"B", AgentName.contrarian, "s", "b", none, 1, [], 0⟩,
         GraphOp.edge ⟨"A", "B", EdgeRelation.leads_to, 1, []⟩], true) ∧
    edgePairs (runOps
        [GraphOp.node ⟨"A", AgentName.deep_thinker, "s", "a", none, 1, [], 0⟩,
         GraphOp.node ⟨"B", AgentName.contrarian, "s", "b", none, 1, [], 0⟩,
         GraphOp.edge ⟨"A", "B", EdgeRelation.leads_to, 1, []⟩]) = [("A", "B")] := by
  constructor
  · refine ((c1_amended_cycle_prevention
        [GraphOp.node ⟨"A", AgentName.deep_thinker, "s", "a", none, 1, [], 0⟩,
         GraphOp.node ⟨"B", AgentName.contrarian, "s", "b", none, 1, [], 0⟩,
         GraphOp.edge ⟨"A", "B", EdgeRelation.leads_to, 1, []⟩]).1
      ⟨"B", "A", EdgeRelation.leads_to, 1, []⟩).mp ⟨by decide, by decide, ?_⟩
    apply Relation.ReflTransGen.single
    show ("A", "B") ∈ edgePairs (runOps
        [GraphOp.node ⟨"A", AgentName.deep_thinker, "s", "a", none, 1, [], 0⟩,
         GraphOp.node ⟨"B", AgentName.contrarian, "s", "b", none, 1, [], 0⟩,
         GraphOp.edge ⟨"A", "B", EdgeRelation.leads_to, 1, []⟩])
    decide
  · decide

/-! ## Dict lemmas for the snapshot round-trip -/

/-- Lookup after a single dict assignment. -/
theorem lookupAttr_upsert (m : AttrMap) (k : String) (v : Val) (k' : String) :
    lookupAttr (upsertAttr m k v) k' =
      if k' = k then some v else lookupAttr m k' := by
  induction m with
  | nil =>
    by_cases h : k' = k
    · simp [upsertAttr, lookupAttr, List.find?, h]
    · have hbe : (k == k') = false := beq_eq_false_iff_ne.mpr (fun hh => h hh.symm)
      simp [upsertAttr, lookupAttr, List.find?, h, hbe]
  | cons p rest ih =>
    by_cases hpk : p.1 = k
    · have hc : (p.1 == k) = true := beq_iff_eq.mpr hpk
      by_cases h : k' = k
      · simp [upsertAttr, hc, lookupAttr, List.find?, h]
      · have hbe : (k == k') = false := beq_eq_false_iff_ne.mpr (fun hh => h hh.symm)
        have hbe2 : (p.1 == k') = false := by rw [hpk]; exact hbe
        simp [upsertAttr, hc, lookupAttr, List.find?, hbe, hbe2, h]
    · have hc : (p.1 == k) = false := beq_eq_false_iff_ne.mpr hpk
      by_cases h : k' = p.1
      · have hbe : (p.1 == k') = true := beq_iff_eq.mpr h.symm
        have hne : ¬ k' = k := fun hh => hpk (h.symm.trans hh)
        simp [upsertAttr, hc, lookupAttr, List.find?, hbe, hne]
      · have hbe : (p.1 == k') = false := beq_eq_false_iff_ne.mpr (fun hh => h hh.symm)
        simp only [upsertAttr, hc, Bool.false_eq_true, if_false, lookupAttr,
          List.find?, hbe]
        exact ih

/-- Lookup misses exactly the absent keys. -/
theorem lookupAttr_eq_none_iff (m : AttrMap) (k : String) :
    lookupAttr m k = none ↔ k ∉ m.map Prod.fst := by
  induction m with
  | nil => simp [lookupAttr, List.find?]
  | cons p rest ih =>
    by_cases hpk : p.1 = k
    · have hc : (p.1 == k) = true := beq_iff_eq.mpr hpk
      simp [lookupAttr, List.find?, hc, hpk]
    · have hc : (p.1 == k) = false := beq_eq_false_iff_ne.mpr hpk
      simp only [lookupAttr, List.find?, hc, List.map_cons, List.mem_cons]
      rw [← lookupAttr]
      rw [ih]
      constructor
      · intro hnone hmem
        rcases hmem with hmem | hmem
        · exact hpk hmem.symm
        · exact hnone hmem
      · intro hnmem hmem
        exact hnmem (Or.inr hmem)

/-- Lookup through a dict merge `{**m, **u}` (unique keys in `u`): the
update wins where present. -/
theorem lookupAttr_updateAttrs (u : AttrMap) :
    ∀ (m : AttrMap) (k : String), (u.map Prod.fst).Nodup →
      lookupAttr (updateAttrs m u) k =
        match lookupAttr u k with
        | some v => some v
        | none => lookupAttr m k := by
  induction u with
  | nil => intro m k _; simp [updateAttrs, lookupAttr, List.find?]
  | cons e u' ih =>
    intro m k hnodup
    have hnodup' : (u'.map Prod.fst).Nodup := (List.nodup_cons.mp hnodup).2
    have hstep : updateAttrs m (e :: u') = updateAttrs (upsertAttr m e.1 e.2) u' := rfl
    rw [hstep, ih (upsertAttr m e.1 e.2) k hnodup']
    by_cases hk : k = e.1
    · have hnm : e.1 ∉ u'.map Prod.fst := (List.nodup_cons.mp hnodup).1
      have hnone : lookupAttr u' k = none := by
        rw [lookupAttr_eq_none_iff]
        rw [hk]
        exact hnm
      have hhead : lookupAttr (e :: u') k = some e.2 := by
        have hc : (e.1 == k) = true := beq_iff_eq.mpr hk.symm
        simp [lookupAttr, List.find?, hc]
      rw [hnone, hhead, lookupAttr_upsert]
      simp [hk]
    · have hhead : lookupAttr (e :: u') k = lookupAttr u' k := by
        have hc : (e.1 == k) = false := beq_eq_false_iff_ne.mpr (fun hh => hk hh.symm)
        simp [lookupAttr, List.find?, hc]
      rw [hhead, lookupAttr_upsert]
      cases lookupAttr u' k <;> simp [hk]

/-- Assigning an absent key appends. -/
theorem upsertAttr_of_not_mem (m : AttrMap) (k : String) (v : Val)
    (h : ∀ p ∈ m, p.1 ≠ k) : upsertAttr m k v = m ++ [(k, v)] := by
  induction m with
  | nil => rfl
  | cons p rest ih =>
    have hc : (p.1 == k) = false :=
      beq_eq_false_iff_ne.mpr (h p (List.mem_cons_self _ _))
    simp only [upsertAttr, hc, Bool.false_eq_true, if_false, List.cons_append,
      List.cons.injEq, true_and]
    exact ih (fun q hq => h q (List.mem_cons_of_mem _ hq))

/-- Merging a dict whose keys are all fresh appends it. -/
theorem updateAttrs_disjoint (u : AttrMap) :
    ∀ (m : AttrMap), (∀ p ∈ u, ∀ q ∈ m, p.1 ≠ q.1) → (u.map Prod.fst).Nodup →
      updateAttrs m u = m ++ u := by
  induction u with
  | nil => intro m _ _; simp [updateAttrs]
  | cons e u' ih =>
    intro m hdisj hnodup
    have hstep : updateAttrs m (e :: u') = updateAttrs (upsertAttr m e.1 e.2) u' := rfl
    have hfresh : ∀ p ∈ m, p.1 ≠ e.1 := by
      intro p hp
      exact fun hh => (hdisj e (List.mem_cons_self _ _) p hp) hh.symm
    rw [hstep, upsertAttr_of_not_mem m e.1 e.2 hfresh]
    rw [ih (m ++ [(e.1, e.2)]) ?_ (List.nodup_cons.mp hnodup).2]
    · simp
    · intro p hp q hq
      rcases List.mem_append.mp hq with hq' | hq'
      · exact hdisj p (List.mem_cons_of_mem _ hp) q hq'
      · simp only [List.mem_singleton] at hq'
        subst hq'
        intro hh
        exact (List.nodup_cons.mp hnodup).1 (by
          rw [← hh]
          exact List.mem_map_of_mem _ hp)

/-- Lookup through a key-removing filter (a dict `pop`). -/
theorem lookupAttr_filter_ne (m : AttrMap) (k₀ k : String) :
    lookupAttr (m.filter (fun p => p.1 != k₀)) k =
      if k = k₀ then none else lookupAttr m k := by
  induction m with
  | nil => simp [lookupAttr, List.find?]
  | cons p rest ih =>
    by_cases hpk : p.1 = k₀
    · have hc : (p.1 != k₀) = false := by simp [hpk]
      by_cases hk : k = k₀
      · simp only [List.filter_cons, hc, Bool.false_eq_true, if_false]
        rw [ih]
        simp [hk]
      · have hfind : (p.1 == k) = false :=
          beq_eq_false_iff_ne.mpr (fun hh => hk (hh ▸ hpk))
        simp only [List.filter_cons, hc, Bool.false_eq_true, if_false]
        rw [ih]
        simp [hk, lookupAttr, List.find?, hfind]
    · have hc : (p.1 != k₀) = true := by simp [hpk]
      by_cases hpk' : p.1 = k
      · have hfind : (p.1 == k) = true := beq_iff_eq.mpr hpk'
        have hk : ¬ k = k₀ := fun hh => hpk (hpk'.trans hh)
        simp [List.filter_cons, hc, lookupAttr, List.find?, hfind, hk]
      · have hfind : (p.1 == k) = false := beq_eq_false_iff_ne.mpr hpk'
        simp only [List.filter_cons, hc, if_true]
        have hl : lookupAttr (p :: rest.filter (fun p => p.1 != k₀)) k =
            lookupAttr (rest.filter (fun p => p.1 != k₀)) k := by
          simp [lookupAttr, List.find?, hfind]
        have hr : lookupAttr (p :: rest) k = lookupAttr rest k := by
          simp [lookupAttr, List.find?, hfind]
        rw [hl, ih, hr]

/-- Serialization preserves keys and maps values. -/
theorem lookupAttr_serializeAttrs (m : AttrMap) (k : String) :
    lookupAttr (serializeAttrs m) k = (lookupAttr m k).map serializeVal := by
  induction m with
  | nil => simp [serializeAttrs, lookupAttr, List.find?]
  | cons p rest ih =>
    by_cases hpk : p.1 = k
    · have hc : (p.1 == k) = true := beq_iff_eq.mpr hpk
      simp [serializeAttrs, lookupAttr, List.find?, hc]
    · have hc : (p.1 == k) = false := beq_eq_false_iff_ne.mpr hpk
      simp only [serializeAttrs, List.map_cons, lookupAttr, List.find?, hc]
      exact ih

theorem serializeAttrs_keys (m : AttrMap) :
    (serializeAttrs m).map Prod.fst = m.map Prod.fst := by
  simp [serializeAttrs, List.map_map]

/-- With unique keys, the entry found by key is the member itself. -/
theorem find?_key_of_mem {α : Type} (m : List (String × α))
    (hnodup : (m.map Prod.fst).Nodup) (p : String × α) (hp : p ∈ m) :
    m.find? (fun q => q.1 == p.1) = some p := by
  induction m with
  | nil => cases hp
  | cons q rest ih =>
    rcases List.mem_cons.mp hp with rfl | hp'
    · simp [List.find?]
    · have hqp : q.1 ≠ p.1 := by
        intro hh
        exact (List.nodup_cons.mp hnodup).1 (by
          rw [hh]
          exact List.mem_map_of_mem _ hp')
      have hc : (q.1 == p.1) = false := beq_eq_false_iff_ne.mpr hqp
      simp only [List.find?, hc]
      exact ih (List.nodup_cons.mp hnodup).2 hp'

/-! ## Snapshot round-trip lemmas -/

/-- Popping the id out of a snapshot node dict recovers the node key, and
lookups in the remainder are the serialized original attributes. -/
theorem snapshot_node_dict_pop (nid : String) (attrs : AttrMap)
    (hattr : (attrs.map Prod.fst).Nodup)
    (hid : lookupAttr attrs "id" = none ∨
      lookupAttr attrs "id" = some (Val.str nid)) :
    (popAttr (updateAttrs [("id", Val.str nid)] (serializeAttrs attrs)) "id").1 =
      some (Val.str nid) ∧
    (∀ k : String,
      lookupAttr
        (popAttr (updateAttrs [("id", Val.str nid)] (serializeAttrs attrs)) "id").2
        k = if k = "id" then none else (lookupAttr attrs k).map serializeVal) := by
  have hser_nodup : ((serializeAttrs attrs).map Prod.fst).Nodup := by
    rw [serializeAttrs_keys]
    exact hattr
  have hlook : ∀ k, lookupAttr
      (updateAttrs [("id", Val.str nid)] (serializeAttrs attrs)) k =
      match lookupAttr (serializeAttrs attrs) k with
      | some v => some v
      | none => lookupAttr [("id", Val.str nid)] k :=
    fun k => lookupAttr_updateAttrs (serializeAttrs attrs) _ k hser_nodup
  constructor
  · show lookupAttr (updateAttrs [("id", Val.str nid)] (serializeAttrs attrs)) "id" =
      some (Val.str nid)
    rw [hlook, lookupAttr_serializeAttrs]
    rcases hid with hid | hid
    · rw [hid]
      rfl
    · rw [hid]
      rfl
  · intro k
    show lookupAttr ((updateAttrs [("id", Val.str nid)]
        (serializeAttrs attrs)).filter (fun p => p.1 != "id")) k = _
    rw [lookupAttr_filter_ne]
    by_cases hk : k = "id"
    · simp [hk]
    · rw [if_neg hk, if_neg hk, hlook, lookupAttr_serializeAttrs]
      have hbase : lookupAttr [("id", Val.str nid)] k = none := by
        have hc : ("id" == k) = false :=
          beq_eq_false_iff_ne.mpr (fun hh => hk hh.symm)
        simp [lookupAttr, List.find?, hc]
      cases lookupAttr attrs k with
      | none => simp [hbase]
      | some v => rfl

/-- Loading a batch of fresh, distinct nodes appends them in order and
leaves the edges alone. -/
theorem foldl_addNode_fresh :
    ∀ (items : List (String × AttrMap)) (g : PyGraph),
      (items.map Prod.fst).Nodup →
      (∀ p ∈ items, hasNodeB g p.1 = false) →
      (items.foldl (fun acc p => addNodePy acc p.1 p.2) g).nodes =
        g.nodes ++ items ∧
      (items.foldl (fun acc p => addNodePy acc p.1 p.2) g).edges = g.edges := by
  intro items
  induction items with
  | nil => intro g _ _; simp
  | cons p rest ih =>
    intro g hnodup hfresh
    have hp : hasNodeB g p.1 = false := hfresh p (List.mem_cons_self _ _)
    have hstep : addNodePy g p.1 p.2 = { g with nodes := g.nodes ++ [(p.1, p.2)] } := by
      unfold addNodePy
      rw [if_neg (by rw [hp]; exact Bool.false_ne_true)]
    have hfresh' : ∀ q ∈ rest, hasNodeB { g with nodes := g.nodes ++ [(p.1, p.2)] } q.1 = false := by
      intro q hq
      have hq1 : hasNodeB g q.1 = false := hfresh q (List.mem_cons_of_mem _ hq)
      have hqne : p.1 ≠ q.1 := by
        intro hh
        exact (List.nodup_cons.mp hnodup).1 (by
          rw [hh]
          exact List.mem_map_of_mem _ hq)
      simp only [hasNodeB, List.any_append, List.any_cons, List.any_nil,
        Bool.or_false, Bool.or_eq_false_iff] at hq1 ⊢
      constructor
      · simpa [hasNodeB] using hq1
      · simpa using hqne
    have hrec := ih { g with nodes := g.nodes ++ [(p.1, p.2)] }
      (List.nodup_cons.mp hnodup).2 hfresh'
    constructor
    · show ((rest.foldl (fun acc q => addNodePy acc q.1 q.2) (addNodePy g p.1 p.2))).nodes = _
      rw [hstep, hrec.1]
      simp
    · show ((rest.foldl (fun acc q => addNodePy acc q.1 q.2) (addNodePy g p.1 p.2))).edges = _
      rw [hstep, hrec.2]

/-- `G.add_edge` between existing nodes with no prior edge appends. -/
theorem addEdgeRaw_append (g : PyGraph) (u v : String) (attrs : AttrMap)
    (hu : hasNodeB g u = true) (hv : hasNodeB g v = true)
    (hne : hasEdgeB g u v = false) :
    addEdgeRaw g u v attrs = { g with edges := g.edges ++ [(u, v, attrs)] } := by
  have h1 : ensureNode g u = g := by
    unfold ensureNode
    rw [if_pos hu]
  have h2 : ensureNode (ensureNode g u) v = g := by
    rw [h1]
    unfold ensureNode
    rw [if_pos hv]
  unfold addEdgeRaw
  rw [h2, if_neg (by rw [hne]; exact Bool.false_ne_true)]

/-- Loading a batch of distinct edges between existing nodes appends them
in order and leaves the nodes alone. -/
theorem foldl_addEdge_existing :
    ∀ (items : List (String × String × AttrMap)) (g : PyGraph),
      ((items.map (fun e => (e.1, e.2.1))).Nodup) →
      (∀ e ∈ items, hasNodeB g e.1 = true ∧ hasNodeB g e.2.1 = true) →
      (∀ e ∈ items, hasEdgeB g e.1 e.2.1 = false) →
      (items.foldl (fun acc e => addEdgeRaw acc e.1 e.2.1 e.2.2) g).nodes = g.nodes ∧
      (items.foldl (fun acc e => addEdgeRaw acc e.1 e.2.1 e.2.2) g).edges =
        g.edges ++ items := by
  intro items
  induction items with
  | nil => intro g _ _ _; simp
  | cons e rest ih =>
    intro g hnodup hnodes hedges
    have hstep : addEdgeRaw g e.1 e.2.1 e.2.2 =
        { g with edges := g.edges ++ [(e.1, e.2.1, e.2.2)] } :=
      addEdgeRaw_append g e.1 e.2.1 e.2.2
        (hnodes e (List.mem_cons_self _ _)).1
        (hnodes e (List.mem_cons_self _ _)).2
        (hedges e (List.mem_cons_self _ _))
    set g' : PyGraph := { g with edges := g.edges ++ [(e.1, e.2.1, e.2.2)] } with hg'
    have hnodes' : ∀ e' ∈ rest, hasNodeB g' e'.1 = true ∧ hasNodeB g' e'.2.1 = true := by
      intro e' he'
      exact hnodes e' (List.mem_cons_of_mem _ he')
    have hedges' : ∀ e' ∈ rest, hasEdgeB g' e'.1 e'.2.1 = false := by
      intro e' he'
      have h0 : hasEdgeB g e'.1 e'.2.1 = false := hedges e' (List.mem_cons_of_mem _ he')
      have hpairne : (e.1, e.2.1) ≠ (e'.1, e'.2.1) := by
        intro hh
        exact (List.nodup_cons.mp hnodup).1 (by
          show (e.1, e.2.1) ∈ List.map (fun q => (q.1, q.2.1)) rest
          rw [hh]
          exact List.mem_map_of_mem _ he')
      simp only [hasEdgeB, hg', List.any_append, List.any_cons, List.any_nil,
        Bool.or_false, Bool.or_eq_false_iff]
      constructor
      · simpa [hasEdgeB] using h0
      · simp only [Bool.and_eq_false_iff]
        by_cases h1 : e.1 = e'.1
        · right
          have : e.2.1 ≠ e'.2.1 := by
            intro h2
            exact hpairne (by rw [h1, h2])
          simpa using this
        · left
          simpa using h1
    have hrec := ih g' (List.nodup_cons.mp hnodup).2 hnodes' hedges'
    constructor
    · show ((rest.foldl (fun acc q => addEdgeRaw acc q.1 q.2.1 q.2.2)
          (addEdgeRaw g e.1 e.2.1 e.2.2))).nodes = _
      rw [hstep, hrec.1]
    · show ((rest.foldl (fun acc q => addEdgeRaw acc q.1 q.2.1 q.2.2)
          (addEdgeRaw g e.1 e.2.1 e.2.2))).edges = _
      rw [hstep, hrec.2]
      simp

/-- `hasNodeB` is key membership. -/
theorem hasNodeB_iff_mem_keys (g : PyGraph) (k : String) :
    hasNodeB g k = true ↔ k ∈ g.nodes.map Prod.fst := by
  simp only [hasNodeB, List.any_eq_true, beq_iff_eq, List.mem_map]

/-- Popping the endpoints back out of a snapshot edge dict recovers the
edge exactly. -/
theorem snapshot_edge_step (u v : String) (attrs : AttrMap)
    (hnodup : (attrs.map Prod.fst).Nodup)
    (hplain : ∀ p ∈ attrs, p.1 ≠ "source_id" ∧ p.1 ≠ "target_id")
    (hu : u ≠ "") (hv : v ≠ "") (acc : PyGraph) :
    loadEdgeStep acc
        (updateAttrs [("source_id", Val.str u), ("target_id", Val.str v)] attrs) =
      addEdgeRaw acc u v attrs := by
  have hstruct : updateAttrs [("source_id", Val.str u), ("target_id", Val.str v)]
      attrs = ("source_id", Val.str u) :: ("target_id", Val.str v) :: attrs := by
    rw [updateAttrs_disjoint attrs _ ?_ hnodup]
    · rfl
    · intro p hp q hq
      rcases List.mem_cons.mp hq with hq' | hq'
      · rw [hq']
        exact (hplain p hp).1
      · simp only [List.mem_singleton] at hq'
        subst hq'
        exact (hplain p hp).2
  have hfilter1 : attrs.filter (fun p => p.1 != "source_id") = attrs :=
    List.filter_eq_self.mpr (fun p hp => by simp [(hplain p hp).1])
  have hfilter2 : attrs.filter (fun p => p.1 != "target_id") = attrs :=
    List.filter_eq_self.mpr (fun p hp => by simp [(hplain p hp).2])
  have hpop1 : popAttr (("source_id", Val.str u) :: ("target_id", Val.str v) ::
      attrs) "source_id" = (some (Val.str u), ("target_id", Val.str v) :: attrs) := by
    unfold popAttr
    rw [show lookupAttr (("source_id", Val.str u) :: ("target_id", Val.str v) ::
      attrs) "source_id" = some (Val.str u) from rfl]
    rw [show (("source_id", Val.str u) :: ("target_id", Val.str v) ::
        attrs).filter (fun p => p.1 != "source_id") =
      ("target_id", Val.str v) :: attrs.filter (fun p => p.1 != "source_id") from rfl]
    rw [hfilter1]
  have hpop2 : popAttr (("target_id", Val.str v) :: attrs) "target_id" =
      (some (Val.str v), attrs) := by
    unfold popAttr
    rw [show lookupAttr (("target_id", Val.str v) :: attrs) "target_id" =
      some (Val.str v) from rfl]
    rw [show (("target_id", Val.str v) :: attrs).filter
        (fun p => p.1 != "target_id") =
      attrs.filter (fun p => p.1 != "target_id") from rfl]
    rw [hfilter2]
  unfold loadEdgeStep
  rw [hstruct, hpop1]
  simp only
  rw [hpop2]
  simp [truthyId, hu, hv]

/-- Loading the node dicts of a snapshot into a graph fresh for all its
keys appends exactly the popped rows and leaves the edges alone. -/
theorem c8_node_phase_gen :
    ∀ (sess : List (String × AttrMap)) (acc : PyGraph),
      (∀ p ∈ sess, (p.2.map Prod.fst).Nodup) →
      (∀ p ∈ sess, lookupAttr p.2 "id" = none ∨
        lookupAttr p.2 "id" = some (Val.str p.1)) →
      (∀ p ∈ sess, p.1 ≠ "") →
      (sess.map Prod.fst).Nodup →
      (∀ p ∈ sess, hasNodeB acc p.1 = false) →
      ((sess.map (fun p =>
          updateAttrs [("id", Val.str p.1)] (serializeAttrs p.2))).foldl
          loadNodeStep acc).nodes =
        acc.nodes ++ sess.map (fun p => (p.1,
          (popAttr (updateAttrs [("id", Val.str p.1)] (serializeAttrs p.2))
            "id").2)) ∧
      ((sess.map (fun p =>
          updateAttrs [("id", Val.str p.1)] (serializeAttrs p.2))).foldl
          loadNodeStep acc).edges = acc.edges := by
  intro sess
  induction sess with
  | nil => intro acc _ _ _ _ _; simp
  | cons p rest ih =>
    intro acc h1 h2 h3 h4 h5
    have hpmem : p ∈ p :: rest := List.mem_cons_self _ _
    have hpop := snapshot_node_dict_pop p.1 p.2 (h1 p hpmem) (h2 p hpmem)
    have hstepEq : loadNodeStep acc
        (updateAttrs [("id", Val.str p.1)] (serializeAttrs p.2)) =
        addNodePy acc p.1
          (popAttr (updateAttrs [("id", Val.str p.1)] (serializeAttrs p.2))
            "id").2 := by
      unfold loadNodeStep
      rw [hpop.1]
      simp [truthyId, h3 p hpmem]
    have haddEq : addNodePy acc p.1
        (popAttr (updateAttrs [("id", Val.str p.1)] (serializeAttrs p.2)) "id").2 =
        { acc with nodes := acc.nodes ++ [(p.1,
          (popAttr (updateAttrs [("id", Val.str p.1)] (serializeAttrs p.2))
            "id").2)] } := by
      unfold addNodePy
      rw [if_neg (by rw [h5 p hpmem]; exact Bool.false_ne_true)]
    set restRow := (popAttr (updateAttrs [("id", Val.str p.1)]
      (serializeAttrs p.2)) "id").2 with hrow
    set acc' : PyGraph :=
      { acc with nodes := acc.nodes ++ [(p.1, restRow)] } with hacc'
    have hfresh' : ∀ q ∈ rest, hasNodeB acc' q.1 = false := by
      intro q hq
      have hq1 : hasNodeB acc q.1 = false := h5 q (List.mem_cons_of_mem _ hq)
      have hqne : p.1 ≠ q.1 := by
        intro hh
        exact (List.nodup_cons.mp h4).1 (by
          rw [hh]
          exact List.mem_map_of_mem _ hq)
      simp only [hasNodeB, hacc', List.any_append, List.any_cons, List.any_nil,
        Bool.or_false, Bool.or_eq_false_iff]
      constructor
      · simpa [hasNodeB] using hq1
      · simpa using hqne
    have hrec := ih acc'
      (fun q hq => h1 q (List.mem_cons_of_mem _ hq))
      (fun q hq => h2 q (List.mem_cons_of_mem _ hq))
      (fun q hq => h3 q (List.mem_cons_of_mem _ hq))
      (List.nodup_cons.mp h4).2
      hfresh'
    constructor
    · show ((rest.map (fun q => updateAttrs [("id", Val.str q.1)]
          (serializeAttrs q.2))).foldl loadNodeStep
          (loadNodeStep acc (updateAttrs [("id", Val.str p.1)]
            (serializeAttrs p.2)))).nodes = _
      rw [hstepEq, haddEq, hrec.1]
      simp [hacc']
    · show ((rest.map (fun q => updateAttrs [("id", Val.str q.1)]
          (serializeAttrs q.2))).foldl loadNodeStep
          (loadNodeStep acc (updateAttrs [("id", Val.str p.1)]
            (serializeAttrs p.2)))).edges = _
      rw [hstepEq, haddEq, hrec.2]

/-- Loading the edge dicts of a snapshot whose endpoints exist appends
exactly the original edges and leaves the nodes alone. -/
theorem c8_edge_phase_gen :
    ∀ (items : List (String × String × AttrMap)) (acc : PyGraph),
      (∀ e ∈ items, (e.2.2.map Prod.fst).Nodup) →
      (∀ e ∈ items, ∀ q ∈ e.2.2, q.1 ≠ "source_id" ∧ q.1 ≠ "target_id") →
      (∀ e ∈ items, e.1 ≠ "" ∧ e.2.1 ≠ "") →
      ((items.map (fun e => (e.1, e.2.1))).Nodup) →
      (∀ e ∈ items, hasNodeB acc e.1 = true ∧ hasNodeB acc e.2.1 = true) →
      (∀ e ∈ items, hasEdgeB acc e.1 e.2.1 = false) →
      ((items.map (fun e => updateAttrs
          [("source_id", Val.str e.1), ("target_id", Val.str e.2.1)] e.2.2)).foldl
          loadEdgeStep acc).nodes = acc.nodes ∧
      ((items.map (fun e => updateAttrs
          [("source_id", Val.str e.1), ("target_id", Val.str e.2.1)] e.2.2)).foldl
          loadEdgeStep acc).edges = acc.edges ++ items := by
  intro items
  induction items with
  | nil => intro acc _ _ _ _ _ _; simp
  | cons e rest ih =>
    intro acc h1 h2 h3 h4 h5 h6
    have hemem : e ∈ e :: rest := List.mem_cons_self _ _
    have hstepEq : loadEdgeStep acc (updateAttrs
        [("source_id", Val.str e.1), ("target_id", Val.str e.2.1)] e.2.2) =
        addEdgeRaw acc e.1 e.2.1 e.2.2 :=
      snapshot_edge_step e.1 e.2.1 e.2.2 (h1 e hemem) (h2 e hemem)
        (h3 e hemem).1 (h3 e hemem).2 acc
    have haddEq : addEdgeRaw acc e.1 e.2.1 e.2.2 =
        { acc with edges := acc.edges ++ [(e.1, e.2.1, e.2.2)] } :=
      addEdgeRaw_append acc e.1 e.2.1 e.2.2 (h5 e hemem).1 (h5 e hemem).2
        (h6 e hemem)
    set acc' : PyGraph :=
      { acc with edges := acc.edges ++ [(e.1, e.2.1, e.2.2)] } with hacc'
    have hnodes' : ∀ e' ∈ rest, hasNodeB acc' e'.1 = true ∧
        hasNodeB acc' e'.2.1 = true := by
      intro e' he'
      exact h5 e' (List.mem_cons_of_mem _ he')
    have hedges' : ∀ e' ∈ rest, hasEdgeB acc' e'.1 e'.2.1 = false := by
      intro e' he'
      have h0 : hasEdgeB acc e'.1 e'.2.1 = false := h6 e' (List.mem_cons_of_mem _ he')
      have hpairne : (e.1, e.2.1) ≠ (e'.1, e'.2.1) := by
        intro hh
        exact (List.nodup_cons.mp h4).1 (by
          show (e.1, e.2.1) ∈ List.map (fun q => (q.1, q.2.1)) rest
          rw [hh]
          exact List.mem_map_of_mem _ he')
      simp only [hasEdgeB, hacc', List.any_append, List.any_cons, List.any_nil,
        Bool.or_false, Bool.or_eq_false_iff]
      constructor
      · simpa [hasEdgeB] using h0
      · simp only [Bool.and_eq_false_iff]
        by_cases hfst : e.1 = e'.1
        · right
          have : e.2.1 ≠ e'.2.1 := by
            intro hsnd
            exact hpairne (by rw [hfst, hsnd])
          simpa using this
        · left
          simpa using hfst
    have hrec := ih acc'
      (fun q hq => h1 q (List.mem_cons_of_mem _ hq))
      (fun q hq => h2 q (List.mem_cons_of_mem _ hq))
      (fun q hq => h3 q (List.mem_cons_of_mem _ hq))
      (List.nodup_cons.mp h4).2
      hnodes' hedges'
    constructor
    · show ((rest.map (fun q => updateAttrs
          [("source_id", Val.str q.1), ("target_id", Val.str q.2.1)] q.2.2)).foldl
          loadEdgeStep (loadEdgeStep acc (updateAttrs
            [("source_id", Val.str e.1), ("target_id", Val.str e.2.1)]
            e.2.2))).nodes = _
      rw [hstepEq, haddEq, hrec.1]
    · show ((rest.map (fun q => updateAttrs
          [("source_id", Val.str q.1), ("target_id", Val.str q.2.1)] q.2.2)).foldl
          loadEdgeStep (loadEdgeStep acc (updateAttrs
            [("source_id", Val.str e.1), ("target_id", Val.str e.2.1)]
            e.2.2))).edges = _
      rw [hstepEq, haddEq, hrec.2]
      simp [hacc']

/-! ## C8 — snapshot round-trip -/

/-- **C8.** Exporting a session with `to_snapshot` and loading the result
with `load_snapshot` into an empty graph preserves the session's node
count (which is also the returned load count), its edge count (edges with
both endpoints in the session), and — through the graph's `get_node`
view — every per-node attribute, with datetime-valued attributes
serialized to their ISO strings. -/
theorem c8_snapshot_roundtrip (g : PyGraph) (sid : String) (hwf : GraphWF g) :
    (load_snapshot pyEmptyGraph (to_snapshot g sid)).1.nodes.length =
      (sessionNodes g sid).length ∧
    (load_snapshot pyEmptyGraph (to_snapshot g sid)).2 =
      (sessionNodes g sid).length ∧
    (load_snapshot pyEmptyGraph (to_snapshot g sid)).1.edges.length =
      (sessionEdges g sid).length ∧
    (∀ p ∈ sessionNodes g sid, ∃ dNew dOld : AttrMap,
      get_node (load_snapshot pyEmptyGraph (to_snapshot g sid)).1 p.1 = some dNew ∧
      get_node g p.1 = some dOld ∧
      ∀ k : String, lookupAttr dNew k = (lookupAttr dOld k).map serializeVal) := by
  have hsub : ∀ p ∈ sessionNodes g sid, p ∈ g.nodes :=
    fun p hp => List.mem_of_mem_filter hp
  have hkeysnd : ((sessionNodes g sid).map Prod.fst).Nodup :=
    List.Nodup.sublist (List.Sublist.map Prod.fst (List.filter_sublist g.nodes))
      hwf.nodeKeysNodup
  have hnodesnap : (to_snapshot g sid).nodes = (sessionNodes g sid).map
      (fun p => updateAttrs [("id", Val.str p.1)] (serializeAttrs p.2)) := rfl
  have hphase1 := c8_node_phase_gen (sessionNodes g sid) pyEmptyGraph
    (fun p hp => hwf.nodeAttrKeysNodup p (hsub p hp))
    (fun p hp => hwf.nodeIdAttr p (hsub p hp))
    (fun p hp => hwf.nodeKeysNonempty p (hsub p hp))
    hkeysnd
    (fun p _ => rfl)
  have hg1nodes : ((to_snapshot g sid).nodes.foldl loadNodeStep pyEmptyGraph).nodes =
      (sessionNodes g sid).map (fun p => (p.1,
        (popAttr (updateAttrs [("id", Val.str p.1)] (serializeAttrs p.2))
          "id").2)) := by
    rw [hnodesnap]
    exact hphase1.1
  have hg1edges : ((to_snapshot g sid).nodes.foldl loadNodeStep pyEmptyGraph).edges
      = [] := by
    rw [hnodesnap]
    exact hphase1.2
  have hesub : ∀ e ∈ sessionEdges g sid, e ∈ g.edges :=
    fun e he => List.mem_of_mem_filter he
  have hepairs : ((sessionEdges g sid).map (fun e => (e.1, e.2.1))).Nodup :=
    List.Nodup.sublist (List.Sublist.map _ (List.filter_sublist g.edges))
      hwf.edgePairsNodup
  have hendpt : ∀ e ∈ sessionEdges g sid,
      e.1 ∈ sessionNodeIds g sid ∧ e.2.1 ∈ sessionNodeIds g sid := by
    intro e he
    have hcond := (List.mem_filter.mp he).2
    rw [Bool.and_eq_true] at hcond
    constructor
    · simpa using hcond.1
    · simpa using hcond.2
  have hend_ne : ∀ e ∈ sessionEdges g sid, e.1 ≠ "" ∧ e.2.1 ≠ "" := by
    intro e he
    rcases hendpt e he with ⟨h1, h2⟩
    constructor
    · rcases List.mem_map.mp h1 with ⟨p, hp, hpe⟩
      rw [← hpe]
      exact hwf.nodeKeysNonempty p (hsub p hp)
    · rcases List.mem_map.mp h2 with ⟨p, hp, hpe⟩
      rw [← hpe]
      exact hwf.nodeKeysNonempty p (hsub p hp)
  have hg1keys : (((to_snapshot g sid).nodes.foldl loadNodeStep
      pyEmptyGraph).nodes.map Prod.fst) = (sessionNodes g sid).map Prod.fst := by
    rw [hg1nodes, List.map_map]
    rfl
  have hnodesg1 : ∀ e ∈ sessionEdges g sid,
      hasNodeB ((to_snapshot g sid).nodes.foldl loadNodeStep pyEmptyGraph) e.1 = true ∧
      hasNodeB ((to_snapshot g sid).nodes.foldl loadNodeStep pyEmptyGraph) e.2.1 = true := by
    intro e he
    rcases hendpt e he with ⟨h1, h2⟩
    constructor
    · rw [hasNodeB_iff_mem_keys, hg1keys]
      exact h1
    · rw [hasNodeB_iff_mem_keys, hg1keys]
      exact h2
  have hedgesg1 : ∀ e ∈ sessionEdges g sid,
      hasEdgeB ((to_snapshot g sid).nodes.foldl loadNodeStep pyEmptyGraph)
        e.1 e.2.1 = false := by
    intro e _
    simp [hasEdgeB, hg1edges]
  have hedgesnap : (to_snapshot g sid).edges = (sessionEdges g sid).map
      (fun e => updateAttrs
        [("source_id", Val.str e.1), ("target_id", Val.str e.2.1)] e.2.2) := rfl
  have hphase2 := c8_edge_phase_gen (sessionEdges g sid)
    ((to_snapshot g sid).nodes.foldl loadNodeStep pyEmptyGraph)
    (fun e he => hwf.edgeAttrKeysNodup e (hesub e he))
    (fun e he => hwf.edgeAttrPlainKeys e (hesub e he))
    hend_ne hepairs hnodesg1 hedgesg1
  have hloadfst : (load_snapshot pyEmptyGraph (to_snapshot g sid)).1 =
      (to_snapshot g sid).edges.foldl loadEdgeStep
        ((to_snapshot g sid).nodes.foldl loadNodeStep pyEmptyGraph) := rfl
  have hg2nodes : (load_snapshot pyEmptyGraph (to_snapshot g sid)).1.nodes =
      (sessionNodes g sid).map (fun p => (p.1,
        (popAttr (updateAttrs [("id", Val.str p.1)] (serializeAttrs p.2))
          "id").2)) := by
    rw [hloadfst, hedgesnap]
    rw [hphase2.1]
    exact hg1nodes
  have hg2edges : (load_snapshot pyEmptyGraph (to_snapshot g sid)).1.edges =
      sessionEdges g sid := by
    rw [hloadfst, hedgesnap]
    rw [hphase2.2, hg1edges]
    simp
  refine ⟨?_, ?_, ?_, ?_⟩
  · rw [hg2nodes, List.length_map]
  · show (to_snapshot g sid).nodes.length = _
    rw [hnodesnap, List.length_map]
  · rw [hg2edges]
  · intro p hp
    refine ⟨upsertAttr (popAttr (updateAttrs [("id", Val.str p.1)]
        (serializeAttrs p.2)) "id").2 "id" (Val.str p.1),
      upsertAttr p.2 "id" (Val.str p.1), ?_, ?_, ?_⟩
    · unfold get_node
      rw [hg2nodes]
      have hmem : ((p.1, (popAttr (updateAttrs [("id", Val.str p.1)]
          (serializeAttrs p.2)) "id").2) : String × AttrMap) ∈
          (sessionNodes g sid).map (fun q => (q.1,
            (popAttr (updateAttrs [("id", Val.str q.1)] (serializeAttrs q.2))
              "id").2)) := List.mem_map_of_mem _ hp
      have hnd2 : (((sessionNodes g sid).map (fun q => (q.1,
          (popAttr (updateAttrs [("id", Val.str q.1)] (serializeAttrs q.2))
            "id").2))).map Prod.fst).Nodup := by
        rw [List.map_map]
        exact hkeysnd
      rw [find?_key_of_mem _ hnd2 _ hmem]
    · unfold get_node
      rw [find?_key_of_mem g.nodes hwf.nodeKeysNodup p (hsub p hp)]
    · intro k
      have hpm := hsub p hp
      have hpop2 := (snapshot_node_dict_pop p.1 p.2
        (hwf.nodeAttrKeysNodup p hpm) (hwf.nodeIdAttr p hpm)).2
      rw [lookupAttr_upsert, lookupAttr_upsert, hpop2 k]
      by_cases hk : k = "id"
      · simp [hk, serializeVal]
      · simp only [hk, if_false]

theorem c8_snapshot_roundtrip_witness :
    (load_snapshot pyEmptyGraph (to_snapshot
      (PyGraph.mk
        [("A", [("session_id", Val.str "s"), ("created_at", Val.dt 5)]),
         ("B", [("session_id", Val.str "s")])]
        [("A", "B", [("weight", Val.num 1)])]) "s")).1.nodes.length = 2 ∧
    (load_snapshot pyEmptyGraph (to_snapshot
      (PyGraph.mk
        [("A", [("session_id", Val.str "s"), ("created_at", Val.dt 5)]),
         ("B", [("session_id", Val.str "s")])]
        [("A", "B", [("weight", Val.num 1)])]) "s")).2 = 2 ∧
    (load_snapshot pyEmptyGraph (to_snapshot
      (PyGraph.mk
        [("A", [("session_id", Val.str "s"), ("created_at", Val.dt 5)]),
         ("B", [("session_id", Val.str "s")])]
        [("A", "B", [("weight", Val.num 1)])]) "s")).1.edges.length = 1 ∧
    (∀ p ∈ sessionNodes
      (PyGraph.mk
        [("A", [("session_id", Val.str "s"), ("created_at", Val.dt 5)]),
         ("B", [("session_id", Val.str "s")])]
        [("A", "B", [("weight", Val.num 1)])]) "s", ∃ dNew dOld : AttrMap,
      get_node (load_snapshot pyEmptyGraph (to_snapshot
        (PyGraph.mk
          [("A", [("session_id", Val.str "s"), ("created_at", Val.dt 5)]),
           ("B", [("session_id", Val.str "s")])]
          [("A", "B", [("weight", Val.num 1)])]) "s")).1 p.1 = some dNew ∧
      get_node (PyGraph.mk
        [("A", [("session_id", Val.str "s"), ("created_at", Val.dt 5)]),
         ("B", [("session_id", Val.str "s")])]
        [("A", "B", [("weight", Val.num 1)])]) p.1 = some dOld ∧
      ∀ k : String, lookupAttr dNew k = (lookupAttr dOld k).map serializeVal) := by
  have hwf : GraphWF (PyGraph.mk
      [("A", [("session_id", Val.str "s"), ("created_at", Val.dt 5)]),
       ("B", [("session_id", Val.str "s")])]
      [("A", "B", [("weight", Val.num 1)])]) := by
    refine ⟨by decide, by decide, by decide, ?_, by decide, by decide,
      by decide, by decide⟩
    intro p hpm
    rcases List.mem_cons.mp hpm with rfl | hpm
    · exact Or.inl rfl
    rcases List.mem_cons.mp hpm with rfl | hpm
    · exact Or.inl rfl
    cases hpm
  have h := c8_snapshot_roundtrip (PyGraph.mk
      [("A", [("session_id", Val.str "s"), ("created_at", Val.dt 5)]),
       ("B", [("session_id", Val.str "s")])]
      [("A", "B", [("weight", Val.num 1)])]) "s" hwf
  exact ⟨h.1.trans (by rfl), h.2.1.trans (by rfl), h.2.2.1.trans (by rfl),
    h.2.2.2⟩
